import Mathlib

/-!
Verification of the `fspathtree` library (file `src/fspathtree/fspathtree.py`):
a shallow embedding of its tree data model, path normalization, navigation
(`getitem`), mutation (`setitem`), view fall-back logic, enumeration
(`_get_all_paths` / `_get_all_leaf_node_paths` / `find`) and glob matching,
together with theorems about the library's documented properties.

Python dicts are modelled as insertion-ordered association lists over string
keys, Python lists as Lean lists, and scalar values as `null` (Python `None`),
`int` and `str` leaves.  Machine-level detail that the library never relies on
(arbitrary hashable dict keys, `bytes` values) is out of the model.  A crucial
point of fidelity: Python `str` *is* a `collections.abc.Sequence`, so the
traversal code indexes into string leaves character by character rather than
rejecting them; the embedding reproduces that.
-/

namespace Fspathtree

/-- A node of the wrapped tree: `None`, an integer scalar, a text string, a
mapping (Python `dict`, insertion ordered) or a sequence (Python `list`). -/
inductive Node where
  | null : Node
  | int (n : Int) : Node
  | str (s : String) : Node
  | map (entries : List (String × Node)) : Node
  | seq (items : List Node) : Node

/-- Python `str.isnumeric()` for the ASCII digit strings the library cares
about: non-empty and all digits.  Used by `_make_node_type_for_key` and both
traversal helpers to decide whether a segment can index a sequence. -/
def isNumeric (s : String) : Bool :=
  !s.isEmpty && s.data.all Char.isDigit

/-- Python `int(key)` on a string of digits. -/
def strToNat (s : String) : Nat :=
  s.data.foldl (fun a c => 10 * a + (c.toNat - 48)) 0

/-- Dict key lookup: first entry with the given key (Python dicts cannot hold
duplicates, so first-match semantics agree with them). -/
def lookupMap : List (String × Node) → String → Option Node
  | [], _ => none
  | (k1, v1) :: rest, k => if k1 = k then some v1 else lookupMap rest k

/-- Dict assignment `d[k] = v`: overwrite in place keeping insertion order,
or append a fresh entry. -/
def mapSet : List (String × Node) → String → Node → List (String × Node)
  | [], k, v => [(k, v)]
  | (k1, v1) :: rest, k, v =>
    if k1 = k then (k1, v) :: rest else (k1, v1) :: mapSet rest k v

/-- List read `l[i]` (callers guard `i < len(l)` exactly as the source does). -/
def listAt : List Node → Nat → Node
  | [], _ => .null
  | x :: _, 0 => x
  | _ :: xs, n + 1 => listAt xs n

/-- List assignment `l[i] = v` (callers guard the bound). -/
def listSet : List Node → Nat → Node → List Node
  | [], _, _ => []
  | _ :: xs, 0, v => v :: xs
  | x :: xs, n + 1, v => x :: listSet xs n v

/-- `while len(tree) <= key: tree.append(None)` — pad with `None` until the
length is at least `n`. -/
def padToLen (items : List Node) (n : Nat) : List Node :=
  items ++ List.replicate (n - items.length) Node.null

/-- Python `s[i]` on a string: the one-character string at index `i`
(callers guard the bound). -/
def strCharAt (s : String) (i : Nat) : String :=
  String.mk [s.data.getD i 'a']

/-- `fspathtree.is_leaf`: strings (and bytes) are leaves; mappings and
sequences are not; everything else is a leaf. -/
def Node.isLeaf : Node → Bool
  | .str _ => true
  | .map _ => false
  | .seq _ => false
  | _ => true

/-- A node that `is_leaf` calls a branch: a mapping or a sequence. -/
def Node.isBranch : Node → Bool
  | .map _ => true
  | .seq _ => true
  | _ => false

/-- A non-string scalar: Python values that are neither `Mapping` nor
`Sequence` instances, i.e. the ones the traversal cannot subscript at all. -/
def Node.isScalar : Node → Bool
  | .null => true
  | .int _ => true
  | _ => false

/-- `fspathtree._make_node_type_for_key`: numeric key → empty sequence,
anything else → empty mapping. -/
def makeNodeTypeForKey (key : String) : Node :=
  if isNumeric key then Node.seq [] else Node.map []

/-- A `PurePosixPath`: absolute flag plus the (slash-free) segments.  For an
absolute path, `PurePosixPath.parts` prepends a literal `"/"` element, which
`pathParts` below reproduces. -/
structure FsPath where
  absolute : Bool
  segs : List String
  deriving DecidableEq

/-- `PurePosixPath.parts`: an absolute path contributes a leading `"/"`. -/
def pathParts (p : FsPath) : List String :=
  if p.absolute then "/" :: p.segs else p.segs

/-- `str(path)` for a `PurePosixPath` (an empty relative path renders `"."`,
the bare root renders `"/"`). -/
def renderPath (p : FsPath) : String :=
  if p.absolute then "/" ++ String.intercalate "/" p.segs
  else if p.segs = [] then "." else String.intercalate "/" p.segs

/-- `base / p` on `PurePosixPath`s: an absolute right operand wins. -/
def joinPath (base p : FsPath) : FsPath :=
  if p.absolute then p else ⟨base.absolute, base.segs ++ p.segs⟩

/-- `root_path / seg` during enumeration: append one segment. -/
def pathChild (p : FsPath) (seg : String) : FsPath :=
  ⟨p.absolute, p.segs ++ [seg]⟩

/-- The absolute root path `/`. -/
def rootAbs : FsPath := ⟨true, []⟩

/-- The loop body of `fspathtree._normalize_path_parts`: `current` segments
are dropped, an `up` segment deletes the last accumulated segment and fails
(returns `None`) when there is none, anything else is appended. -/
def normalizeLoop (up current : String) : List String → List String → Option (List String)
  | [], acc => some acc
  | p :: rest, acc =>
    if p = current then normalizeLoop up current rest acc
    else if p = up then
      if acc.length < 1 then none
      else normalizeLoop up current rest acc.dropLast
    else normalizeLoop up current rest (acc ++ [p])

/-- `fspathtree._normalize_path_parts`: returns the parts unchanged when no
`up`/`current` segment occurs, otherwise runs the stack loop; `none` models
the Python `None` return that callers convert into `PathGoesAboveRoot`. -/
def normalizePathParts (parts : List String) (up : String := "..") (current : String := ".") :
    Option (List String) :=
  if up ∉ parts ∧ current ∉ parts then some parts
  else normalizeLoop up current parts []

/-- The exceptions `_getitem_from_path_parts_imp` can raise: `KeyError(seg)`,
`InvalidIndexError(idx)`, `ValueError(seg)`, `UnrecognizedParentNodeType`
(carrying the remaining parts), and the plain `IndexError` that
`path_parts[0]` raises on an empty tuple. -/
inductive NavErr where
  | keyError (seg : String) : NavErr
  | invalidIndexError (idx : Nat) : NavErr
  | valueError (seg : String) : NavErr
  | unrecognizedParentNodeType (remaining : List String) : NavErr
  | indexErrorEmpty : NavErr
  deriving DecidableEq

/-- `fspathtree._getitem_from_path_parts_imp`.  `Mapping` is tested first,
then `Sequence`; a Python `str` is a `Sequence`, so string leaves are indexed
character by character.  Scalars (`None`, ints) hit the trailing
`UnrecognizedParentNodeType` raise. -/
def getitemFromPathPartsImp (tree : Node) (parts : List String) : Except NavErr Node :=
  match tree, parts with
  | .map _, [] => .error .indexErrorEmpty
  | .map entries, p :: rest =>
    match lookupMap entries p with
    | some node => if rest = [] then .ok node else getitemFromPathPartsImp node rest
    | none => .error (.keyError p)
  | .seq _, [] => .error .indexErrorEmpty
  | .seq items, p :: rest =>
    if isNumeric p then
      let idx := strToNat p
      if items.length > idx then
        let node := listAt items idx
        if rest = [] then .ok node else getitemFromPathPartsImp node rest
      else .error (.invalidIndexError idx)
    else .error (.valueError p)
  | .str _, [] => .error .indexErrorEmpty
  | .str s, p :: rest =>
    if isNumeric p then
      let idx := strToNat p
      if s.length > idx then
        let node := Node.str (strCharAt s idx)
        if rest = [] then .ok node else getitemFromPathPartsImp node rest
      else .error (.invalidIndexError idx)
    else .error (.valueError p)
  | _, ps => .error (.unrecognizedParentNodeType ps)

/-- Errors leaving `fspathtree._getitem_from_path_parts`: the navigation
errors pass through untouched, an `UnrecognizedParentNodeType` is converted
into `NodeError` (carrying the consumed-path prefix and the normalized
parts), and a failed normalization raises `PathGoesAboveRoot`. -/
inductive MidErr where
  | keyError (seg : String) : MidErr
  | invalidIndexError (idx : Nat) : MidErr
  | valueError (seg : String) : MidErr
  | indexErrorEmpty : MidErr
  | nodeError (consumed : List String) (fullParts : List String) : MidErr
  | pathGoesAboveRoot : MidErr
  deriving DecidableEq

/-- `fspathtree._getitem_from_path_parts`: normalize, raise
`PathGoesAboveRoot` on `None`, run the recursive walker, and convert
`UnrecognizedParentNodeType` into the friendlier `NodeError` whose consumed
prefix is `[p for p in path_parts if p not in e.remaining_parts]`. -/
def getitemFromPathParts (tree : Node) (parts : List String) : Except MidErr Node :=
  match normalizePathParts parts with
  | none => .error .pathGoesAboveRoot
  | some nparts =>
    match getitemFromPathPartsImp tree nparts with
    | .ok n => .ok n
    | .error (.unrecognizedParentNodeType remaining) =>
        .error (.nodeError (nparts.filter (fun p => !remaining.contains p)) nparts)
    | .error (.keyError seg) => .error (.keyError seg)
    | .error (.invalidIndexError idx) => .error (.invalidIndexError idx)
    | .error (.valueError seg) => .error (.valueError seg)
    | .error .indexErrorEmpty => .error .indexErrorEmpty

/-- The errors `fspathtree.getitem` lets escape.  `KeyError`,
`InvalidIndexError`, `IndexError` and `ValueError` are re-raised with a
message naming the original caller-supplied path (modelled structurally as
the `origPath` field); `NodeError` and `PathGoesAboveRoot` fall through the
final `except Exception: raise e` unchanged. -/
inductive TopErr where
  | keyError (origPath : String) (seg : String) : TopErr
  | invalidIndexError (origPath : String) (idx : Nat) : TopErr
  | indexError (origPath : String) (seg : String) : TopErr
  | valueError (origPath : String) (seg : String) : TopErr
  | nodeError (consumed : List String) (fullParts : List String) : TopErr
  | pathGoesAboveRoot : TopErr
  deriving DecidableEq

/-- Discriminator for `except KeyError` (used by `fspathtree.get`). -/
def TopErr.isKeyErr : TopErr → Bool
  | .keyError _ _ => true
  | _ => false

/-- `fspathtree.getitem` (static): strip a leading `/`, return the tree
itself for the empty path, and annotate escaping `KeyError` /
`InvalidIndexError` / `IndexError` / `ValueError` with the original path
string.  The plain `IndexError` coming from subscripting an empty parts
tuple carries Python's own `"tuple index out of range"` argument. -/
def getitem (tree : Node) (path : FsPath) : Except TopErr Node :=
  let originalPath := renderPath path
  if path.segs = [] then .ok tree
  else
    match getitemFromPathParts tree path.segs with
    | .ok n => .ok n
    | .error (.keyError seg) => .error (.keyError originalPath seg)
    | .error (.invalidIndexError idx) => .error (.invalidIndexError originalPath idx)
    | .error .indexErrorEmpty => .error (.indexError originalPath "tuple index out of range")
    | .error (.valueError seg) => .error (.valueError originalPath seg)
    | .error (.nodeError c f) => .error (.nodeError c f)
    | .error .pathGoesAboveRoot => .error .pathGoesAboveRoot

/-- Exceptions raised inside `_setitem_from_path_parts_imp`: `ValueError`
for a non-numeric segment against a sequence, `TypeError` for item
assignment on a `str`, `AttributeError` for `append` on a `str`, and the
`IndexError` from `path_parts[0]` on an empty tuple. -/
inductive SetInnerErr where
  | valueError (seg : String) : SetInnerErr
  | typeError : SetInnerErr
  | attributeError : SetInnerErr
  | indexErrorEmpty : SetInnerErr
  deriving DecidableEq

/-- The outcome of `_setitem_from_path_parts_imp`: the Python function
either mutates its argument in place and returns `None` (`updated` carries
the post-state of the argument) or returns a freshly created replacement
node for the caller to rebind (`replace`). -/
inductive SetResult where
  | updated (tree : Node) : SetResult
  | replace (fresh : Node) : SetResult

/-- `fspathtree._setitem_from_path_parts_imp`.  Mapping: assign, or create a
missing child with `_make_node_type_for_key(path_parts[1])` and recurse;
when the recursion hands back a replacement node, rebind the child and redo
the recursion (whose own return value Python discards).  Sequence: the key
must be numeric, the list is padded with `None` up to the index, `None`
children are replaced before descending.  A `str` is a `Sequence` too, but
`append` / item assignment on it raise (`AttributeError` / `TypeError`).
Any other node is a previously-set scalar: return an empty node of the
shape selected by the current segment so the caller can rebind.  (On an
exception Python leaves already-performed mutations in place; this pure
model only reports the exception.) -/
def setitemImp (tree : Node) (parts : List String) (value : Node) : Except SetInnerErr SetResult :=
  match parts with
  | [] => .error .indexErrorEmpty
  | key :: rest =>
    match tree with
    | .map entries =>
      if rest = [] then .ok (.updated (.map (mapSet entries key value)))
      else
        let child :=
          match lookupMap entries key with
          | some c => c
          | none => makeNodeTypeForKey (rest.headD "")
        match setitemImp child rest value with
        | .error e => .error e
        | .ok (.updated c2) => .ok (.updated (.map (mapSet entries key c2)))
        | .ok (.replace fresh) =>
          match setitemImp fresh rest value with
          | .error e => .error e
          | .ok (.updated c3) => .ok (.updated (.map (mapSet entries key c3)))
          | .ok (.replace _) => .ok (.updated (.map (mapSet entries key fresh)))
    | .seq items =>
      if isNumeric key then
        let idx := strToNat key
        let items2 := padToLen items (idx + 1)
        if rest = [] then .ok (.updated (.seq (listSet items2 idx value)))
        else
          let child :=
            match listAt items2 idx with
            | .null => makeNodeTypeForKey (rest.headD "")
            | c => c
          match setitemImp child rest value with
          | .error e => .error e
          | .ok (.updated c2) => .ok (.updated (.seq (listSet items2 idx c2)))
          | .ok (.replace fresh) =>
            match setitemImp fresh rest value with
            | .error e => .error e
            | .ok (.updated c3) => .ok (.updated (.seq (listSet items2 idx c3)))
            | .ok (.replace _) => .ok (.updated (.seq (listSet items2 idx fresh)))
      else .error (.valueError key)
    | .str s =>
      if isNumeric key then
        let idx := strToNat key
        if s.length ≤ idx then .error .attributeError
        else if rest = [] then .error .typeError
        else
          match setitemImp (Node.str (strCharAt s idx)) rest value with
          | .error e => .error e
          | .ok (.updated _) => .ok (.updated (.str s))
          | .ok (.replace _) => .error .typeError
      else .error (.valueError key)
    | _ => .ok (.replace (makeNodeTypeForKey key))

/-- Errors leaving `_setitem_from_path_parts`. -/
inductive SetMidErr where
  | inner (e : SetInnerErr) : SetMidErr
  | pathGoesAboveRoot : SetMidErr
  deriving DecidableEq

/-- `fspathtree._setitem_from_path_parts`: normalize (raising
`PathGoesAboveRoot` on `None`) and run the recursive setter.  The
function ignores the setter's return value, so a replacement demanded for
the root node is silently dropped and the tree is left as it was. -/
def setitemFromPathParts (tree : Node) (parts : List String) (value : Node) :
    Except SetMidErr Node :=
  match normalizePathParts parts with
  | none => .error .pathGoesAboveRoot
  | some nparts =>
    match setitemImp tree nparts value with
    | .error e => .error (.inner e)
    | .ok (.updated t2) => .ok t2
    | .ok (.replace _) => .ok tree

/-- Errors escaping `fspathtree.setitem`: `ValueError` / `IndexError` get the
original-path annotation; `TypeError`, `AttributeError` and
`PathGoesAboveRoot` fall through `except Exception: raise e` unchanged. -/
inductive SetTopErr where
  | indexError (origPath : String) (seg : String) : SetTopErr
  | valueError (origPath : String) (seg : String) : SetTopErr
  | typeError : SetTopErr
  | attributeError : SetTopErr
  | pathGoesAboveRoot : SetTopErr
  deriving DecidableEq

/-- `fspathtree.setitem` (static): strip a leading `/`, run the parts
setter, and annotate `ValueError` / `IndexError` with the original path. -/
def setitem (tree : Node) (path : FsPath) (value : Node) : Except SetTopErr Node :=
  let originalPath := renderPath path
  match setitemFromPathParts tree path.segs value with
  | .ok t2 => .ok t2
  | .error (.inner (.valueError seg)) => .error (.valueError originalPath seg)
  | .error (.inner .indexErrorEmpty) => .error (.indexError originalPath "tuple index out of range")
  | .error (.inner .typeError) => .error .typeError
  | .error (.inner .attributeError) => .error .attributeError
  | .error .pathGoesAboveRoot => .error .pathGoesAboveRoot

/-- An `fspathtree` instance: the local subtree, the root tree, and the
absolute path of the subtree inside the root.  (In Python `tree` aliases a
node inside `root`; the pure model carries both values.) -/
structure View where
  tree : Node
  root : Node
  abspath : FsPath

/-- `fspathtree.__getitem__` at the value level.  Absolute paths resolve
against the root.  Relative paths resolve against the local subtree; if and
only if that raises `PathGoesAboveRoot`, and the view is not already at the
root, the lookup is retried against the root with `abspath / path`.  Every
other error propagates unchanged.  (Wrapping a branch result into a fresh
`fspathtree` view affects only the returned proxy, not the value, and is not
modelled.) -/
def viewGetitem (v : View) (path : FsPath) : Except TopErr Node :=
  if path.absolute then getitem v.root path
  else
    match getitem v.tree path with
    | .error .pathGoesAboveRoot =>
      if v.abspath = rootAbs then .error .pathGoesAboveRoot
      else getitem v.root (joinPath v.abspath path)
    | r => r

/-- Which underlying container a `__setitem__` call ended up writing:
the root tree or the local subtree (whose post-states the constructors
carry). -/
inductive SetTarget where
  | ontoRoot (newRoot : Node) : SetTarget
  | ontoLocal (newTree : Node) : SetTarget

/-- `fspathtree.__setitem__`: same absolute / relative / escape-retry
dispatch as `__getitem__`, delegating to `setitem`. -/
def viewSetitem (v : View) (path : FsPath) (value : Node) : Except SetTopErr SetTarget :=
  if path.absolute then
    match setitem v.root path value with
    | .ok r => .ok (.ontoRoot r)
    | .error e => .error e
  else
    match setitem v.tree path value with
    | .ok t => .ok (.ontoLocal t)
    | .error .pathGoesAboveRoot =>
      if v.abspath = rootAbs then .error .pathGoesAboveRoot
      else
        match setitem v.root (joinPath v.abspath path) value with
        | .ok r => .ok (.ontoRoot r)
        | .error e => .error e
    | .error e => .error e

/-- `fspathtree.get(path, default_value)`: `try: return self[path] except
KeyError: return default_value`.  Only `KeyError` is swallowed; every other
exception (including the `InvalidIndexError` subclass of `IndexError`)
propagates. -/
def viewGet (v : View) (path : FsPath) (defaultValue : Node) : Except TopErr Node :=
  match viewGetitem v path with
  | .ok n => .ok n
  | .error (.keyError _ _) => .ok defaultValue
  | .error e => .error e

/-! ### Shell-glob matching (`fnmatch.fnmatchcase` / `PurePath.match`) -/

/-- Split a character-class body at its closing `]`; `none` when the class
is never closed (in which case `[` is treated as a literal). -/
def splitAtRBracket : List Char → Option (List Char × List Char)
  | [] => none
  | c :: rest =>
    if c = ']' then some ([], rest)
    else
      match splitAtRBracket rest with
      | some (b, r) => some (c :: b, r)
      | none => none

theorem splitAtRBracket_length (l b r : List Char) (h : splitAtRBracket l = some (b, r)) :
    r.length < l.length := by
  induction l generalizing b r with
  | nil => simp [splitAtRBracket] at h
  | cons c rest ih =>
    by_cases hc : c = ']'
    · simp [splitAtRBracket, hc] at h
      obtain ⟨-, h2⟩ := h
      subst h2
      simp
    · simp only [splitAtRBracket, if_neg hc] at h
      cases hsplit : splitAtRBracket rest with
      | none => rw [hsplit] at h; simp at h
      | some pr =>
        obtain ⟨b2, r2⟩ := pr
        rw [hsplit] at h
        simp at h
        obtain ⟨-, h2⟩ := h
        subst h2
        have := ih b2 r2 hsplit
        simp
        omega

/-- Part of `fnmatch.translate`'s class handling: a `]` placed first in the
class body is an ordinary member, after which the body runs up to the next
`]`.  Returns the body and the rest of the pattern. -/
def parseClassBody (ps1 : List Char) : Option (List Char × List Char) :=
  match ps1 with
  | ']' :: ps2 =>
    match splitAtRBracket ps2 with
    | some (b, r) => some (']' :: b, r)
    | none => none
  | _ =>
    match splitAtRBracket ps1 with
    | some (b, r) => some (b, r)
    | none => none

theorem parseClassBody_length (ps1 b r : List Char) (h : parseClassBody ps1 = some (b, r)) :
    r.length < ps1.length := by
  unfold parseClassBody at h
  split at h
  · rename_i ps2
    cases hsplit : splitAtRBracket ps2 with
    | none => rw [hsplit] at h; simp at h
    | some pr =>
      obtain ⟨b2, r2⟩ := pr
      rw [hsplit] at h
      simp at h
      obtain ⟨-, h2⟩ := h
      subst h2
      have := splitAtRBracket_length ps2 b2 r2 hsplit
      simp
      omega
  · rename_i hne
    cases hsplit : splitAtRBracket ps1 with
    | none => rw [hsplit] at h; simp at h
    | some pr =>
      obtain ⟨b2, r2⟩ := pr
      rw [hsplit] at h
      simp at h
      obtain ⟨-, h2⟩ := h
      subst h2
      exact splitAtRBracket_length ps1 b2 r2 hsplit

/-- Parse the character class that follows a `[` in an fnmatch pattern,
following `fnmatch.translate`: an optional leading `!` negates, a `]` right
after it is a literal member, and the class runs to the next `]` (no closing
`]` makes the whole `[` literal).  Returns (negated, body, rest). -/
def parseClass (ps : List Char) : Option (Bool × List Char × List Char) :=
  match ps with
  | '!' :: ps1 =>
    match parseClassBody ps1 with
    | some (b, r) => some (true, b, r)
    | none => none
  | ps1 =>
    match parseClassBody ps1 with
    | some (b, r) => some (false, b, r)
    | none => none

theorem parseClass_length (ps : List Char) (n : Bool) (b r : List Char)
    (h : parseClass ps = some (n, b, r)) : r.length < ps.length := by
  unfold parseClass at h
  split at h
  · rename_i ps1
    cases hb : parseClassBody ps1 with
    | none => rw [hb] at h; simp at h
    | some pr =>
      obtain ⟨b2, r2⟩ := pr
      rw [hb] at h
      simp at h
      obtain ⟨-, -, h2⟩ := h
      subst h2
      have := parseClassBody_length ps1 b2 r2 hb
      simp
      omega
  · rename_i hne
    cases hb : parseClassBody ps with
    | none => rw [hb] at h; simp at h
    | some pr =>
      obtain ⟨b2, r2⟩ := pr
      rw [hb] at h
      simp at h
      obtain ⟨-, -, h2⟩ := h
      subst h2
      exact parseClassBody_length ps b2 r2 hb

/-- Membership of a character in a class body, with `a-b` ranges; a `-` that
is not flanked by two characters is an ordinary member (as in the regex
classes `fnmatch.translate` emits). -/
def charInClassBody : List Char → Char → Bool
  | [], _ => false
  | a :: '-' :: b :: rest, c => (decide (a ≤ c) && decide (c ≤ b)) || charInClassBody rest c
  | a :: rest, c => (a == c) || charInClassBody rest c

/-- `fnmatch.fnmatchcase` on explicit character lists: `*` matches any run,
`?` any single character, `[...]` a character class, anything else itself. -/
def globMatch (ps cs : List Char) : Bool :=
  match ps, cs with
  | [], [] => true
  | [], _ :: _ => false
  | '*' :: ps1, cs =>
    globMatch ps1 cs ||
      (match cs with
       | [] => false
       | _ :: cs2 => globMatch ('*' :: ps1) cs2)
  | '[' :: ps1, cs =>
    (match hpc : parseClass ps1 with
     | some (neg, body, ps2) =>
       (match cs with
        | [] => false
        | c :: cs2 => (charInClassBody body c != neg) && globMatch ps2 cs2)
     | none =>
       (match cs with
        | [] => false
        | c :: cs2 => (c == '[') && globMatch ps1 cs2))
  | '?' :: ps1, cs =>
    (match cs with
     | [] => false
     | _ :: cs2 => globMatch ps1 cs2)
  | p :: ps1, cs =>
    (match cs with
     | [] => false
     | c :: cs2 => (p == c) && globMatch ps1 cs2)
  termination_by (ps.length, cs.length)
  decreasing_by
  all_goals first
    | (apply Prod.Lex.left <;> simp <;> omega)
    | (apply Prod.Lex.right <;> simp <;> omega)
    | (apply Prod.Lex.left
       have := parseClass_length ps1 neg body ps2 hpc
       simp
       omega)

/-- `fnmatch.fnmatchcase(name, pat)`. -/
def fnmatchStr (name pat : String) : Bool := globMatch pat.data name.data

/-- The trailing-component comparison of `PurePath.match`:
`zip(reversed(parts), reversed(pat_parts))` compared with `fnmatchcase`. -/
def matchTrailing (parts pats : List String) : Bool :=
  (List.zip parts.reverse pats.reverse).all (fun pr => fnmatchStr pr.1 pr.2)

/-- `PurePosixPath.match`: an absolute pattern must match an absolute path
with exactly the same number of components, component by component; a
relative pattern matches against the trailing components (and may not be
longer than the path).  `pathParts` includes the `"/"` marker for absolute
paths, exactly as `PurePosixPath.parts` does, so an absolute pattern can
never match a relative path.  (Python raises `ValueError` on an empty
pattern; theorems below restrict themselves to non-empty patterns.) -/
def pathMatch (p : FsPath) (pattern : FsPath) : Bool :=
  let pats := pathParts pattern
  let parts := pathParts p
  if pattern.absolute then
    p.absolute && decide (parts.length = pats.length) && matchTrailing parts pats
  else
    decide (pats.length ≤ parts.length) && matchTrailing parts pats

/-! ### Enumeration (`_get_all_paths`, `_get_all_leaf_node_paths`, `find`) -/

/-- A Python callable handed to the enumeration as predicate or transform,
together with the parameter count that `len(signature(f).parameters)`
reports.  `app1` is its behaviour when called with the path only, `app2`
when called with path and node; the dispatch below consults `numParams`
exactly as the source inspects the signature, so for a callable declared
with other than 1 or 2 parameters neither field is ever used. -/
structure PyCallable (α : Type) where
  numParams : Nat
  app1 : FsPath → α
  app2 : FsPath → Node → α

/-- A transform argument: a type constructor (e.g. `str`), which is applied
to the path without any arity inspection, or an ordinary callable. -/
inductive Transform where
  | typeCtor (f : FsPath → FsPath) : Transform
  | callable (c : PyCallable FsPath) : Transform

/-- Failures of the enumeration: the two `RuntimeError`s for unsupported
predicate / transform arities, and the exceptions produced by the
`except:`-fallback iteration of a sequence node (see `seqFallbackError`). -/
inductive EnumErr where
  | predicateNotSupported (numArgs : Nat) : EnumErr
  | transformNotSupported (numArgs : Nat) : EnumErr
  | typeErrorListIndices : EnumErr
  | typeErrorPathJoin : EnumErr
  | indexErrorFallback : EnumErr
  deriving DecidableEq

/-- The predicate dispatch of `_get_all_paths`: 1 parameter → path only,
2 parameters → path and node, anything else → `RuntimeError`. -/
def evalPredicate (pred : PyCallable Bool) (path : FsPath) (node : Node) : Except EnumErr Bool :=
  if pred.numParams = 1 then .ok (pred.app1 path)
  else if pred.numParams = 2 then .ok (pred.app2 path node)
  else .error (.predicateNotSupported pred.numParams)

/-- The transform dispatch of `_get_all_paths`: `None` yields the path
itself, a type is applied directly, a callable goes through the same
arity inspection as the predicate. -/
def evalTransform : Option Transform → FsPath → Node → Except EnumErr FsPath
  | none, p, _ => .ok p
  | some (.typeCtor f), p, _ => .ok (f p)
  | some (.callable c), p, n =>
    if c.numParams = 1 then .ok (c.app1 p)
    else if c.numParams = 2 then .ok (c.app2 p n)
    else .error (.transformNotSupported c.numParams)

/-- What the `except:` fallback loop `for k in node: node[k]` raises when it
re-iterates a *list* whose index loop failed: the elements themselves are
used as indices, so the first element decides — an in-range integer indexes
the list and then `root_path / k` raises `TypeError` (a `PurePosixPath`
cannot be joined with an `int`), an out-of-range integer raises
`IndexError`, anything else raises `TypeError` (list indices must be
integers).  Unreachable for an empty list. -/
def seqFallbackError (items : List Node) : EnumErr :=
  match items with
  | [] => .typeErrorListIndices
  | k :: _ =>
    match k with
    | .int n =>
      if 0 ≤ n ∧ n < (items.length : Int) then .typeErrorPathJoin
      else if n < 0 ∧ -n ≤ (items.length : Int) then .typeErrorPathJoin
      else .indexErrorFallback
    | _ => .typeErrorListIndices

mutual
/-- `fspathtree._get_all_paths`, eagerly collected.  Per node: evaluate the
predicate (fail-fast on bad arity), emit the (transformed) path when it
accepts, and recurse into children of non-leaf nodes.  The source first
tries `for i in range(len(node)): node[i]` inside a `try:`; for a (string
keyed) dict that raises `KeyError` at `i = 0` before anything is yielded,
so dict children are enumerated by the `except:` key loop, whose own errors
propagate.  For a list the index loop works, but should a nested error
occur, the `except:` loop re-iterates the list using its *elements* as
indices and dies with `seqFallbackError`.  (Python yields lazily; the eager
model keeps the same success results and the same final exception.) -/
def getAllPaths (node : Node) (transform : Option Transform)
    (predicate : Option (PyCallable Bool)) (rootPath : FsPath) : Except EnumErr (List FsPath) :=
  match (match predicate with
         | none => Except.ok true
         | some pr => evalPredicate pr rootPath node) with
  | .error e => .error e
  | .ok returnPath =>
    match (if returnPath then
             match evalTransform transform rootPath node with
             | .ok x => Except.ok [x]
             | .error e => Except.error e
           else Except.ok ([] : List FsPath)) with
    | .error e => .error e
    | .ok emitted =>
      match node with
      | .map entries =>
        match getAllPathsMapChildren entries transform predicate rootPath with
        | .ok kids => .ok (emitted ++ kids)
        | .error e => .error e
      | .seq items =>
        match getAllPathsSeqChildren items 0 transform predicate rootPath with
        | .ok kids => .ok (emitted ++ kids)
        | .error _ => .error (seqFallbackError items)
      | _ => .ok emitted

/-- The `for k in node:` enumeration of a dict node's children. -/
def getAllPathsMapChildren (entries : List (String × Node)) (transform : Option Transform)
    (predicate : Option (PyCallable Bool)) (rootPath : FsPath) : Except EnumErr (List FsPath) :=
  match entries with
  | [] => .ok []
  | (k, c) :: rest =>
    match getAllPaths c transform predicate (pathChild rootPath k) with
    | .error e => .error e
    | .ok l1 =>
      match getAllPathsMapChildren rest transform predicate rootPath with
      | .error e => .error e
      | .ok l2 => .ok (l1 ++ l2)

/-- The `for i in range(len(node)):` enumeration of a list node's children
(`i` is the running index, rendered with `str(i)` for the child path). -/
def getAllPathsSeqChildren (items : List Node) (i : Nat) (transform : Option Transform)
    (predicate : Option (PyCallable Bool)) (rootPath : FsPath) : Except EnumErr (List FsPath) :=
  match items with
  | [] => .ok []
  | c :: rest =>
    match getAllPaths c transform predicate (pathChild rootPath (toString i)) with
    | .error e => .error e
    | .ok l1 =>
      match getAllPathsSeqChildren rest (i + 1) transform predicate rootPath with
      | .error e => .error e
      | .ok l2 => .ok (l1 ++ l2)
end

/-- The predicate composition of `_get_all_leaf_node_paths`: without a user
predicate the effective predicate is `lambda p, n: is_leaf(n)`; a 1- or
2-parameter user predicate is conjoined after the leaf test; any other
arity raises the `RuntimeError` immediately.  Only `app2` of the built
callable is meaningful — its declared arity is 2. -/
def newPredicateLeaf (predicate : Option (PyCallable Bool)) : Except EnumErr (PyCallable Bool) :=
  match predicate with
  | none => .ok ⟨2, fun _ => true, fun _ n => n.isLeaf⟩
  | some pr =>
    if pr.numParams = 1 then .ok ⟨2, fun _ => true, fun p n => n.isLeaf && pr.app1 p⟩
    else if pr.numParams = 2 then .ok ⟨2, fun _ => true, fun p n => n.isLeaf && pr.app2 p n⟩
    else .error (.predicateNotSupported pr.numParams)

/-- `fspathtree._get_all_leaf_node_paths`: `_get_all_paths` with the leaf
conjunction as predicate. -/
def getAllLeafNodePaths (node : Node) (transform : Option Transform)
    (predicate : Option (PyCallable Bool)) (rootPath : FsPath) : Except EnumErr (List FsPath) :=
  match newPredicateLeaf predicate with
  | .error e => .error e
  | .ok np => getAllPaths node transform (some np) rootPath

/-- `fspathtree.find` (with `as_string=False`, hence no transform): the
leaf-path enumeration filtered by the 1-parameter predicate
`lambda p: p.match(pattern)`. -/
def find (tree : Node) (pattern : FsPath) (rootPath : FsPath) : Except EnumErr (List FsPath) :=
  getAllLeafNodePaths tree none
    (some ⟨1, fun p => pathMatch p pattern, fun _ _ => false⟩) rootPath

/-! ### State-passing read models (for the frame property)

Python's traversal operates on the caller's containers by reference.  The
functions below re-run the read-only code paths while explicitly threading
the containers' state: each container access installs the child's post-state
back into the parent, exactly where Python's aliasing would put it.  Reads
perform no assignments, so the post-state always equals the input; that is
the content of the frame theorem below. -/

/-- State-threaded `_getitem_from_path_parts_imp`: first component is the
tree after the call (aliasing made explicit), second the result. -/
def getitemFromPathPartsImpS (tree : Node) (parts : List String) : Node × Except NavErr Node :=
  match tree, parts with
  | .map entries, [] => (.map entries, .error .indexErrorEmpty)
  | .map entries, p :: rest =>
    match lookupMap entries p with
    | some node =>
      if rest = [] then (.map entries, .ok node)
      else
        match getitemFromPathPartsImpS node rest with
        | (node2, r) => (.map (mapSet entries p node2), r)
    | none => (.map entries, .error (.keyError p))
  | .seq items, [] => (.seq items, .error .indexErrorEmpty)
  | .seq items, p :: rest =>
    if isNumeric p then
      let idx := strToNat p
      if items.length > idx then
        if rest = [] then (.seq items, .ok (listAt items idx))
        else
          match getitemFromPathPartsImpS (listAt items idx) rest with
          | (node2, r) => (.seq (listSet items idx node2), r)
      else (.seq items, .error (.invalidIndexError idx))
    else (.seq items, .error (.valueError p))
  | .str s, [] => (.str s, .error .indexErrorEmpty)
  | .str s, p :: rest =>
    if isNumeric p then
      let idx := strToNat p
      if s.length > idx then
        if rest = [] then (.str s, .ok (.str (strCharAt s idx)))
        else
          match getitemFromPathPartsImpS (.str (strCharAt s idx)) rest with
          | (_, r) => (.str s, r)
      else (.str s, .error (.invalidIndexError idx))
    else (.str s, .error (.valueError p))
  | t, ps => (t, .error (.unrecognizedParentNodeType ps))

mutual
/-- State-threaded `_get_all_paths`. -/
def getAllPathsS (node : Node) (transform : Option Transform)
    (predicate : Option (PyCallable Bool)) (rootPath : FsPath) :
    Node × Except EnumErr (List FsPath) :=
  match (match predicate with
         | none => Except.ok true
         | some pr => evalPredicate pr rootPath node) with
  | .error e => (node, .error e)
  | .ok returnPath =>
    match (if returnPath then
             match evalTransform transform rootPath node with
             | .ok x => Except.ok [x]
             | .error e => Except.error e
           else Except.ok ([] : List FsPath)) with
    | .error e => (node, .error e)
    | .ok emitted =>
      match node with
      | .map entries =>
        match getAllPathsMapChildrenS entries transform predicate rootPath with
        | (entries2, .ok kids) => (.map entries2, .ok (emitted ++ kids))
        | (entries2, .error e) => (.map entries2, .error e)
      | .seq items =>
        match getAllPathsSeqChildrenS items 0 transform predicate rootPath with
        | (items2, .ok kids) => (.seq items2, .ok (emitted ++ kids))
        | (items2, .error _) => (.seq items2, .error (seqFallbackError items2))
      | other => (other, .ok emitted)

/-- State-threaded dict-children enumeration. -/
def getAllPathsMapChildrenS (entries : List (String × Node)) (transform : Option Transform)
    (predicate : Option (PyCallable Bool)) (rootPath : FsPath) :
    List (String × Node) × Except EnumErr (List FsPath) :=
  match entries with
  | [] => ([], .ok [])
  | (k, c) :: rest =>
    match getAllPathsS c transform predicate (pathChild rootPath k) with
    | (c2, .error e) => ((k, c2) :: rest, .error e)
    | (c2, .ok l1) =>
      match getAllPathsMapChildrenS rest transform predicate rootPath with
      | (rest2, .error e) => ((k, c2) :: rest2, .error e)
      | (rest2, .ok l2) => ((k, c2) :: rest2, .ok (l1 ++ l2))

/-- State-threaded list-children enumeration. -/
def getAllPathsSeqChildrenS (items : List Node) (i : Nat) (transform : Option Transform)
    (predicate : Option (PyCallable Bool)) (rootPath : FsPath) :
    List Node × Except EnumErr (List FsPath) :=
  match items with
  | [] => ([], .ok [])
  | c :: rest =>
    match getAllPathsS c transform predicate (pathChild rootPath (toString i)) with
    | (c2, .error e) => (c2 :: rest, .error e)
    | (c2, .ok l1) =>
      match getAllPathsSeqChildrenS rest (i + 1) transform predicate rootPath with
      | (rest2, .error e) => (c2 :: rest2, .error e)
      | (rest2, .ok l2) => (c2 :: rest2, .ok (l1 ++ l2))
end

/-! ### Basic container lemmas -/

theorem lookupMap_mapSet (es : List (String × Node)) (k : String) (v : Node) :
    lookupMap (mapSet es k v) k = some v := by
  induction es with
  | nil => simp [mapSet, lookupMap]
  | cons e rest ih =>
    obtain ⟨k1, v1⟩ := e
    by_cases hk : k1 = k
    · simp [mapSet, lookupMap, hk]
    · simp [mapSet, lookupMap, hk, ih]

theorem mapSet_self (es : List (String × Node)) (k : String) (c : Node)
    (h : lookupMap es k = some c) : mapSet es k c = es := by
  induction es with
  | nil => simp [lookupMap] at h
  | cons e rest ih =>
    obtain ⟨k1, v1⟩ := e
    by_cases hk : k1 = k
    · simp [lookupMap, hk] at h
      simp [mapSet, hk, h]
    · simp [lookupMap, hk] at h
      simp [mapSet, hk, ih h]

theorem listSet_length (l : List Node) (i : Nat) (v : Node) :
    (listSet l i v).length = l.length := by
  induction l generalizing i with
  | nil => simp [listSet]
  | cons x xs ih =>
    cases i with
    | zero => simp [listSet]
    | succ n => simp [listSet, ih]

theorem listAt_listSet (l : List Node) (i : Nat) (v : Node) (h : i < l.length) :
    listAt (listSet l i v) i = v := by
  induction l generalizing i with
  | nil => simp at h
  | cons x xs ih =>
    cases i with
    | zero => simp [listSet, listAt]
    | succ n =>
      simp [listSet, listAt]
      exact ih n (by simpa using h)

theorem listSet_listAt_self (l : List Node) (i : Nat) (h : i < l.length) :
    listSet l i (listAt l i) = l := by
  induction l generalizing i with
  | nil => simp at h
  | cons x xs ih =>
    cases i with
    | zero => simp [listSet, listAt]
    | succ n =>
      simp [listSet, listAt]
      exact ih n (by simpa using h)

theorem padToLen_length (items : List Node) (n : Nat) :
    (padToLen items n).length = max items.length n := by
  simp [padToLen]
  omega

theorem listAt_append_replicate_null (items : List Node) (m i : Nat)
    (h : items.length ≤ i) :
    listAt (items ++ List.replicate m Node.null) i = Node.null := by
  induction items generalizing i with
  | nil =>
    simp only [List.nil_append]
    induction m generalizing i with
    | zero => cases i <;> simp [listAt, List.replicate]
    | succ m2 ih2 =>
      cases i with
      | zero => simp [List.replicate, listAt]
      | succ j => simp [List.replicate, listAt]; exact ih2 j (by simp)
  | cons x xs ih =>
    cases i with
    | zero => simp at h
    | succ j =>
      simp only [List.cons_append, listAt]
      exact ih j (by simpa using h)

/-! ### Claim C5: normalization is idempotent and the identity on clean paths -/

theorem normalizeLoop_clean (up current : String) (l : List String) :
    ∀ acc res, normalizeLoop up current l acc = some res →
      up ∉ acc → current ∉ acc → up ∉ res ∧ current ∉ res := by
  induction l with
  | nil =>
    intro acc res h h1 h2
    simp [normalizeLoop] at h
    subst h
    exact ⟨h1, h2⟩
  | cons p rest ih =>
    intro acc res h h1 h2
    simp only [normalizeLoop] at h
    by_cases hc : p = current
    · rw [if_pos hc] at h
      exact ih acc res h h1 h2
    · rw [if_neg hc] at h
      by_cases hu : p = up
      · rw [if_pos hu] at h
        by_cases hlen : acc.length < 1
        · rw [if_pos hlen] at h; simp at h
        · rw [if_neg hlen] at h
          apply ih _ _ h
          · intro hmem; exact h1 (List.dropLast_subset acc hmem)
          · intro hmem; exact h2 (List.dropLast_subset acc hmem)
      · rw [if_neg hu] at h
        apply ih _ _ h
        · intro hmem
          rcases List.mem_append.mp hmem with h' | h'
          · exact h1 h'
          · simp at h'
            exact hu h'.symm
        · intro hmem
          rcases List.mem_append.mp hmem with h' | h'
          · exact h2 h'
          · simp at h'
            exact hc h'.symm

/-- Claim C5: `_normalize_path_parts` is idempotent on every input where it
succeeds, it returns a path containing neither `.` nor `..` unchanged, and a
`..` that would pop past the start of the output fails (returns `None`,
which callers surface as `PathGoesAboveRoot`) instead of clamping. -/
theorem c5_normalize_idempotent (parts q rest : List String)
    (h : normalizePathParts parts = some q) :
    normalizePathParts q = some q
      ∧ (".." ∉ parts → "." ∉ parts → normalizePathParts parts = some parts)
      ∧ normalizePathParts (".." :: rest) = none := by
  refine ⟨?_, ?_, ?_⟩
  · have hclean : ".." ∉ q ∧ "." ∉ q := by
      unfold normalizePathParts at h
      by_cases hcond : ".." ∉ parts ∧ "." ∉ parts
      · rw [if_pos hcond] at h
        simp at h
        subst h
        exact hcond
      · rw [if_neg hcond] at h
        exact normalizeLoop_clean ".." "." parts [] q h (by simp) (by simp)
    unfold normalizePathParts
    rw [if_pos hclean]
  · intro h1 h2
    unfold normalizePathParts
    rw [if_pos ⟨h1, h2⟩]
  · unfold normalizePathParts
    rw [if_neg (by simp)]
    simp [normalizeLoop]

/-- Witness for C5 at the docstring example flavour `a/../b`. -/
theorem c5_normalize_idempotent_witness :
    normalizePathParts ["a", "..", "b"] = some ["b"]
      ∧ (normalizePathParts ["b"] = some ["b"]
          ∧ (".." ∉ ["a", "..", "b"] → "." ∉ ["a", "..", "b"] →
              normalizePathParts ["a", "..", "b"] = some ["a", "..", "b"])
          ∧ normalizePathParts [".."] = none) :=
  ⟨by rfl, c5_normalize_idempotent ["a", "..", "b"] ["b"] [] (by rfl)⟩

/-! ### Structure of `setitemImp` results -/

theorem makeNodeTypeForKey_not_scalar (k : String) :
    (makeNodeTypeForKey k).isScalar = false := by
  unfold makeNodeTypeForKey
  split <;> rfl

/-- `_setitem_from_path_parts_imp` returns a replacement node exactly for a
non-subscriptable scalar, and the replacement is the empty node shaped by
the current segment. -/
theorem setitemImp_replace (t : Node) (parts : List String) (v : Node) (r : Node)
    (h : setitemImp t parts v = .ok (.replace r)) :
    t.isScalar = true ∧ ∃ key rest, parts = key :: rest ∧ r = makeNodeTypeForKey key := by
  cases parts with
  | nil => simp [setitemImp] at h
  | cons key rest =>
    cases t with
    | null =>
      simp [setitemImp] at h
      exact ⟨rfl, key, rest, rfl, h.symm⟩
    | int n =>
      simp [setitemImp] at h
      exact ⟨rfl, key, rest, rfl, h.symm⟩
    | str s =>
      simp only [setitemImp] at h
      split at h
      · split at h
        · simp at h
        · split at h
          · simp at h
          · split at h
            · simp at h
            · simp at h
            · simp at h
      · simp at h
    | map entries =>
      simp only [setitemImp] at h
      split at h
      · simp at h
      · split at h
        · simp at h
        · simp at h
        · split at h
          · simp at h
          · simp at h
          · simp at h
    | seq items =>
      simp only [setitemImp] at h
      split at h
      · split at h
        · simp at h
        · split at h
          · simp at h
          · simp at h
          · split at h
            · simp at h
            · simp at h
            · simp at h
      · simp at h

/-- `setitem` through a string leaf always raises (`ValueError`,
`AttributeError` or `TypeError`): it never succeeds. -/
theorem setitemImp_str_ne_ok (parts : List String) :
    ∀ (s : String) (v : Node) (r : SetResult), setitemImp (.str s) parts v ≠ .ok r := by
  induction parts with
  | nil => intro s v r; simp [setitemImp]
  | cons key rest ih =>
    intro s v r h
    simp only [setitemImp] at h
    split at h
    · split at h
      · simp at h
      · split at h
        · simp at h
        · split at h
          · simp at h
          · rename_i c2 hrec
            exact ih _ v _ hrec
          · simp at h
    · simp at h

/-! ### Claim C1: write/read round trip -/

/-- Core round-trip induction: whenever the recursive setter succeeds by
updating the tree in place, reading the same (already normalized) parts back
out of the updated tree yields exactly the written value. -/
theorem setitemImp_roundtrip (parts : List String) :
    ∀ (tree v t2 : Node), setitemImp tree parts v = .ok (.updated t2) →
      getitemFromPathPartsImp t2 parts = .ok v := by
  induction parts with
  | nil => intro tree v t2 h; simp [setitemImp] at h
  | cons key rest ih =>
    intro tree v t2 h
    cases tree with
    | null => simp [setitemImp] at h
    | int n => simp [setitemImp] at h
    | str s => exact absurd h (setitemImp_str_ne_ok _ _ _ _)
    | map entries =>
      simp only [setitemImp] at h
      by_cases hrest : rest = []
      · subst hrest
        simp at h
        subst h
        simp [getitemFromPathPartsImp, lookupMap_mapSet]
      · rw [if_neg hrest] at h
        split at h
        · simp at h
        · rename_i c2 hrec
          simp at h
          subst h
          simp only [getitemFromPathPartsImp, lookupMap_mapSet]
          rw [if_neg hrest]
          exact ih _ _ _ hrec
        · rename_i fresh hrec
          split at h
          · simp at h
          · rename_i c3 hrec2
            simp at h
            subst h
            simp only [getitemFromPathPartsImp, lookupMap_mapSet]
            rw [if_neg hrest]
            exact ih _ _ _ hrec2
          · rename_i r2 hrec2
            obtain ⟨-, key2, rest2, -, hfr⟩ := setitemImp_replace _ _ _ _ hrec
            obtain ⟨hscal2, -⟩ := setitemImp_replace _ _ _ _ hrec2
            rw [hfr, makeNodeTypeForKey_not_scalar] at hscal2
            exact absurd hscal2 (by simp)
    | seq items =>
      simp only [setitemImp] at h
      by_cases hnum : isNumeric key
      · rw [if_pos hnum] at h
        have hlen : strToNat key < (padToLen items (strToNat key + 1)).length := by
          rw [padToLen_length]
          omega
        by_cases hrest : rest = []
        · subst hrest
          simp at h
          subst h
          simp only [getitemFromPathPartsImp]
          rw [if_pos hnum]
          simp only [listSet_length]
          rw [if_pos (by omega), listAt_listSet _ _ _ hlen]
          simp
        · rw [if_neg hrest] at h
          split at h
          · simp at h
          · rename_i c2 hrec
            simp at h
            subst h
            simp only [getitemFromPathPartsImp]
            rw [if_pos hnum]
            simp only [listSet_length]
            rw [if_pos (by omega), listAt_listSet _ _ _ hlen]
            rw [if_neg hrest]
            exact ih _ _ _ hrec
          · rename_i fresh hrec
            split at h
            · simp at h
            · rename_i c3 hrec2
              simp at h
              subst h
              simp only [getitemFromPathPartsImp]
              rw [if_pos hnum]
              simp only [listSet_length]
              rw [if_pos (by omega), listAt_listSet _ _ _ hlen]
              rw [if_neg hrest]
              exact ih _ _ _ hrec2
            · rename_i r2 hrec2
              obtain ⟨-, key2, rest2, -, hfr⟩ := setitemImp_replace _ _ _ _ hrec
              obtain ⟨hscal2, -⟩ := setitemImp_replace _ _ _ _ hrec2
              rw [hfr, makeNodeTypeForKey_not_scalar] at hscal2
              exact absurd hscal2 (by simp)
      · rw [if_neg hnum] at h
        simp at h

/-- Claim C1: for every branch-rooted tree, absolute path and value on which
the write succeeds (auto-creating intermediate containers as needed),
`setitem` followed by `getitem` on the same path returns the written
value. -/
theorem c1_set_then_get (tree t2 v : Node) (p : FsPath)
    (hb : tree.isBranch = true) (habs : p.absolute = true)
    (hset : setitem tree p v = .ok t2) :
    getitem t2 p = .ok v := by
  unfold setitem at hset
  cases hmid : setitemFromPathParts tree p.segs v with
  | error e =>
    rw [hmid] at hset
    cases e with
    | inner e2 => cases e2 <;> simp at hset
    | pathGoesAboveRoot => simp at hset
  | ok t2' =>
    rw [hmid] at hset
    simp at hset
    subst hset
    unfold setitemFromPathParts at hmid
    cases hn : normalizePathParts p.segs with
    | none => rw [hn] at hmid; simp at hmid
    | some nparts =>
      rw [hn] at hmid
      dsimp only at hmid
      cases himp : setitemImp tree nparts v with
      | error e => rw [himp] at hmid; simp at hmid
      | ok sr =>
        cases sr with
        | updated tU =>
          rw [himp] at hmid
          simp at hmid
          subst hmid
          have hne : p.segs ≠ [] := by
            intro h0
            rw [h0] at hn
            simp [normalizePathParts] at hn
            subst hn
            simp [setitemImp] at himp
          have hmidget : getitemFromPathParts tU p.segs = .ok v := by
            unfold getitemFromPathParts
            rw [hn]
            dsimp only
            rw [setitemImp_roundtrip nparts tree v tU himp]
          simp only [getitem]
          rw [if_neg hne, hmidget]
        | replace r =>
          rw [himp] at hmid
          simp at hmid
          subst hmid
          obtain ⟨hscal, -⟩ := setitemImp_replace _ _ _ _ himp
          cases tree <;> simp [Node.isScalar] at hscal <;> simp [Node.isBranch] at hb

/-- Witness for C1: a write two levels below an empty root, auto-creating a
sequence and a mapping on the way down. -/
theorem c1_set_then_get_witness :
    (Node.map []).isBranch = true
      ∧ (FsPath.mk true ["a", "0", "b"]).absolute = true
      ∧ setitem (Node.map []) ⟨true, ["a", "0", "b"]⟩ (.int 7) =
          .ok (.map [("a", .seq [.map [("b", .int 7)]])])
      ∧ getitem (.map [("a", .seq [.map [("b", .int 7)]])]) ⟨true, ["a", "0", "b"]⟩ =
          .ok (.int 7) :=
  ⟨by rfl, by rfl, by rfl,
    c1_set_then_get (Node.map []) (.map [("a", .seq [.map [("b", .int 7)]])]) (.int 7)
      ⟨true, ["a", "0", "b"]⟩ (by rfl) (by rfl) (by rfl)⟩

/-! ### Claim C4: sequence auto-extension pads with the placeholder -/

theorem listSet_append_last (l : List Node) (x v : Node) :
    listSet (l ++ [x]) l.length v = l ++ [v] := by
  induction l with
  | nil => simp [listSet]
  | cons y ys ih => simp [listSet, ih]

/-- The spec fixture for C4: a sequence of length 2 under `/items`. -/
def c4Fixture : Node := .map [("items", .seq [.int 10, .int 20])]

/-- The tree after `tree["/items/5/x"] = 7` on `c4Fixture`: the sequence was
padded with three `None` placeholders and extended to length 6. -/
def c4FixtureAfter : Node :=
  .map [("items", .seq [.int 10, .int 20, .null, .null, .null, .map [("x", .int 7)]])]

/-- Claim C4: a write into a sequence at a numeric index `k` at or beyond
the current length appends the `None` placeholder until index `k` exists and
then assigns, never raising however large `k` is; on the spec's fixture the
length-2 sequence becomes length 6 with indices 2–4 the placeholder, and
`/items/3` reads back as the placeholder. -/
theorem c4_seq_auto_extend (items : List Node) (key : String) (v : Node)
    (hnum : isNumeric key = true) (hlen : items.length ≤ strToNat key) :
    setitemImp (.seq items) [key] v =
        .ok (.updated (.seq
          (items ++ List.replicate (strToNat key - items.length) Node.null ++ [v])))
      ∧ (items ++ List.replicate (strToNat key - items.length) Node.null ++ [v]).length
          = strToNat key + 1
      ∧ setitem c4Fixture ⟨true, ["items", "5", "x"]⟩ (.int 7) = .ok c4FixtureAfter
      ∧ getitem c4FixtureAfter ⟨true, ["items", "3"]⟩ = .ok .null := by
  refine ⟨?_, ?_, by rfl, by rfl⟩
  · simp only [setitemImp, hnum, if_true]
    have hpad : padToLen items (strToNat key + 1) =
        (items ++ List.replicate (strToNat key - items.length) Node.null) ++ [Node.null] := by
      unfold padToLen
      have : strToNat key + 1 - items.length = (strToNat key - items.length) + 1 := by omega
      rw [this, List.replicate_succ', List.append_assoc]
    have hlen2 : (items ++ List.replicate (strToNat key - items.length) Node.null).length
        = strToNat key := by
      simp
      omega
    have hstep := listSet_append_last
      (items ++ List.replicate (strToNat key - items.length) Node.null) Node.null v
    rw [hlen2] at hstep
    rw [hpad, hstep]
  · simp
    omega

/-- Witness for C4 at key `"5"` over a one-element sequence. -/
theorem c4_seq_auto_extend_witness :
    isNumeric "5" = true
      ∧ [Node.int 1].length ≤ strToNat "5"
      ∧ (setitemImp (.seq [.int 1]) ["5"] (.int 9) =
            .ok (.updated (.seq
              ([Node.int 1] ++ List.replicate (strToNat "5" - [Node.int 1].length) Node.null
                ++ [Node.int 9])))
          ∧ ([Node.int 1] ++ List.replicate (strToNat "5" - [Node.int 1].length) Node.null
              ++ [Node.int 9]).length = strToNat "5" + 1
          ∧ setitem c4Fixture ⟨true, ["items", "5", "x"]⟩ (.int 7) = .ok c4FixtureAfter
          ∧ getitem c4FixtureAfter ⟨true, ["items", "3"]⟩ = .ok .null) :=
  ⟨by rfl, by simp [strToNat],
    c4_seq_auto_extend [.int 1] "5" (.int 9) (by rfl) (by simp [strToNat])⟩

/-! ### Claim C3: leaf upgrade on write -/

/-- Writing any non-empty path into a freshly created node of the shape
selected by the path's first segment always succeeds by in-place update
(auto-creating every deeper level). -/
theorem setitemImp_fresh_ok (parts : List String) :
    ∀ v : Node, parts ≠ [] →
      ∃ t2, setitemImp (makeNodeTypeForKey (parts.headD "")) parts v = .ok (.updated t2) := by
  induction parts with
  | nil => intro v h; exact absurd rfl h
  | cons key rest ih =>
    intro v _
    by_cases hnum : isNumeric key
    · have hmake : makeNodeTypeForKey key = .seq [] := by simp [makeNodeTypeForKey, hnum]
      simp only [List.headD, hmake]
      by_cases hrest : rest = []
      · subst hrest
        exact ⟨.seq (listSet (padToLen [] (strToNat key + 1)) (strToNat key) v),
          by simp [setitemImp, hnum]⟩
      · obtain ⟨c2, hrec⟩ := ih v hrest
        have hchild : listAt (padToLen [] (strToNat key + 1)) (strToNat key) = .null := by
          apply listAt_append_replicate_null
          simp
        refine ⟨.seq (listSet (padToLen [] (strToNat key + 1)) (strToNat key) c2), ?_⟩
        simp only [setitemImp, hnum, if_true]
        rw [if_neg hrest]
        rw [hchild]
        dsimp only
        rw [hrec]
    · have hmake : makeNodeTypeForKey key = .map [] := by simp [makeNodeTypeForKey, hnum]
      simp only [List.headD, hmake]
      by_cases hrest : rest = []
      · subst hrest
        exact ⟨.map (mapSet [] key v), by simp [setitemImp]⟩
      · obtain ⟨c2, hrec⟩ := ih v hrest
        refine ⟨.map (mapSet [] key c2), ?_⟩
        simp only [setitemImp]
        rw [if_neg hrest]
        simp only [lookupMap]
        rw [hrec]

/-- The concrete post-states of the spec's leaf-upgrade example. -/
def c3TreeOne : Node := .map [("a", .map [("b", .int 1)])]

def c3TreeTwo : Node := .map [("a", .map [("b", .map [("c", .int 2)])])]

/-- Counterexample to C3 as stated: a string is a leaf
(`is_leaf("hello") == True`), yet descending through it on write does not
replace it with a fresh branch — because `str` is a `Sequence`, the setter
demands a numeric index and raises `ValueError` instead. -/
theorem c3_counterexample :
    (Node.str "hello").isLeaf = true
      ∧ setitem (.map [("a", .map [("b", .str "hello")])]) ⟨true, ["a", "b", "c"]⟩ (.int 2)
          = .error (.valueError "/a/b/c" "c") :=
  ⟨by rfl, by rfl⟩

/-- Claim C3 (amended to non-string leaves): when the setter's path descends
through an existing non-string scalar child (`None` or a number) with
segments remaining, the scalar is replaced by a freshly created branch of
the shape selected by the next unresolved segment, the assignment is redone
into that fresh branch, and the result is independent of the discarded
scalar; and concretely, after `t["/a/b"] = 1; t["/a/b/c"] = 2` the node at
`/a/b` is the mapping containing only `c: 2`. -/
theorem c3_leaf_upgrade (entries : List (String × Node)) (key : String) (c v : Node)
    (rest : List String) (hrest : rest ≠ []) (hc : lookupMap entries key = some c)
    (hscal : c.isScalar = true) :
    (∃ b, setitemImp (.map entries) (key :: rest) v = .ok (.updated (.map (mapSet entries key b)))
        ∧ setitemImp (makeNodeTypeForKey (rest.headD "")) rest v = .ok (.updated b)
        ∧ getitemFromPathPartsImp b rest = .ok v)
      ∧ setitem (Node.map []) ⟨true, ["a", "b"]⟩ (.int 1) = .ok c3TreeOne
      ∧ setitem c3TreeOne ⟨true, ["a", "b", "c"]⟩ (.int 2) = .ok c3TreeTwo
      ∧ getitem c3TreeTwo ⟨true, ["a", "b"]⟩ = .ok (.map [("c", .int 2)]) := by
  refine ⟨?_, by rfl, by rfl, by rfl⟩
  obtain ⟨key2, rest2, hr⟩ : ∃ key2 rest2, rest = key2 :: rest2 := by
    cases rest with
    | nil => exact absurd rfl hrest
    | cons a b => exact ⟨a, b, rfl⟩
  obtain ⟨b, hb⟩ := setitemImp_fresh_ok rest v hrest
  refine ⟨b, ?_, hb, setitemImp_roundtrip rest _ v b hb⟩
  have hscalstep : setitemImp c rest v = .ok (.replace (makeNodeTypeForKey key2)) := by
    cases c with
    | null => rw [hr]; simp [setitemImp]
    | int n => rw [hr]; simp [setitemImp]
    | str s => simp [Node.isScalar] at hscal
    | map es => simp [Node.isScalar] at hscal
    | seq l => simp [Node.isScalar] at hscal
  simp only [setitemImp]
  rw [if_neg hrest]
  simp only [hc]
  rw [hscalstep]
  dsimp only
  rw [show makeNodeTypeForKey key2 = makeNodeTypeForKey (rest.headD "") by rw [hr]; rfl]
  rw [hb]

/-- Witness for the amended C3 at the spec's own example: the scalar `1` at
`/a/b` is upgraded to a mapping when `/a/b/c` is written. -/
theorem c3_leaf_upgrade_witness :
    ((["c"] : List String) ≠ []
      ∧ lookupMap [("b", Node.int 1)] "b" = some (.int 1)
      ∧ (Node.int 1).isScalar = true)
      ∧ ((∃ b, setitemImp (.map [("b", .int 1)]) ["b", "c"] (.int 2)
              = .ok (.updated (.map (mapSet [("b", .int 1)] "b" b)))
            ∧ setitemImp (makeNodeTypeForKey ((["c"] : List String).headD "")) ["c"] (.int 2)
                = .ok (.updated b)
            ∧ getitemFromPathPartsImp b ["c"] = .ok (.int 2))
          ∧ setitem (Node.map []) ⟨true, ["a", "b"]⟩ (.int 1) = .ok c3TreeOne
          ∧ setitem c3TreeOne ⟨true, ["a", "b", "c"]⟩ (.int 2) = .ok c3TreeTwo
          ∧ getitem c3TreeTwo ⟨true, ["a", "b"]⟩ = .ok (.map [("c", .int 2)])) :=
  ⟨⟨by simp, by rfl, by rfl⟩,
    c3_leaf_upgrade [("b", .int 1)] "b" (.int 1) (.int 2) ["c"] (by simp) (by rfl) (by rfl)⟩

/-! ### Claim C6: specific error kinds survive to the caller, annotated -/

/-- Counterexample to C6 as stated: `"xy"` is a leaf by `is_leaf`, yet
descending past it does not produce the consumed-prefix (`NodeError`)
failure the claim promises for leaves — a string is a `Sequence`, so a
non-numeric segment against it raises the not-an-index `ValueError`
instead. -/
theorem c6_counterexample :
    (Node.str "xy").isLeaf = true
      ∧ getitem (.map [("a", .str "xy")]) ⟨true, ["a", "z"]⟩
          = .error (.valueError "/a/z" "z") :=
  ⟨by rfl, by rfl⟩

/-- Claim C6 (amended: the consumed-prefix `NodeError` applies to descending
past *non-string* leaves; string leaves are traversed as character
sequences and fail with the index/value kinds).  A missing mapping key
surfaces as `KeyError` naming the segment, an out-of-range numeric segment
as `InvalidIndexError` naming the index, a non-numeric segment against a
sequence as `ValueError` naming the segment — each annotated at `getitem`
with the original caller-supplied path string — and descending past a
`None`/number leaf yields the `NodeError` carrying the consumed path
prefix.  The kinds are distinct constructors throughout, never collapsed
into one generic error. -/
theorem c6_error_kinds (tree : Node) (p : FsPath) (seg : String) (idx : Nat)
    (nparts rem rest2 : List String) (entries : List (String × Node)) (items : List Node)
    (key2 : String) (c : Node) (hp : p.segs ≠ []) :
    (getitemFromPathParts tree p.segs = .error (.keyError seg) →
        getitem tree p = .error (.keyError (renderPath p) seg))
      ∧ (getitemFromPathParts tree p.segs = .error (.invalidIndexError idx) →
          getitem tree p = .error (.invalidIndexError (renderPath p) idx))
      ∧ (getitemFromPathParts tree p.segs = .error (.valueError seg) →
          getitem tree p = .error (.valueError (renderPath p) seg))
      ∧ (normalizePathParts p.segs = some nparts →
          getitemFromPathPartsImp tree nparts = .error (.unrecognizedParentNodeType rem) →
          getitem tree p =
            .error (.nodeError (nparts.filter (fun s => !rem.contains s)) nparts))
      ∧ (lookupMap entries key2 = none →
          getitemFromPathPartsImp (.map entries) (key2 :: rest2) = .error (.keyError key2))
      ∧ (isNumeric key2 = true → items.length ≤ strToNat key2 →
          getitemFromPathPartsImp (.seq items) (key2 :: rest2) =
            .error (.invalidIndexError (strToNat key2)))
      ∧ (isNumeric key2 = false →
          getitemFromPathPartsImp (.seq items) (key2 :: rest2) = .error (.valueError key2))
      ∧ (c.isScalar = true →
          getitemFromPathPartsImp c (key2 :: rest2) =
            .error (.unrecognizedParentNodeType (key2 :: rest2))) := by
  refine ⟨?_, ?_, ?_, ?_, ?_, ?_, ?_, ?_⟩
  · intro h
    simp only [getitem]
    rw [if_neg hp, h]
  · intro h
    simp only [getitem]
    rw [if_neg hp, h]
  · intro h
    simp only [getitem]
    rw [if_neg hp, h]
  · intro hn himp
    simp only [getitem]
    rw [if_neg hp]
    unfold getitemFromPathParts
    rw [hn]
    dsimp only
    rw [himp]
  · intro h
    simp [getitemFromPathPartsImp, h]
  · intro hnum hle
    simp only [getitemFromPathPartsImp, hnum, if_true]
    rw [if_neg (by omega)]
  · intro hnum
    simp [getitemFromPathPartsImp, hnum]
  · intro hscal
    cases c with
    | null => rfl
    | int n => rfl
    | str s => simp [Node.isScalar] at hscal
    | map es => simp [Node.isScalar] at hscal
    | seq l => simp [Node.isScalar] at hscal

/-- Witness for the amended C6 on a small tree, exercising the key-error
annotation clause and the non-string-leaf `NodeError` clause. -/
theorem c6_error_kinds_witness :
    ((["a", "b"] : List String) ≠ []
      ∧ getitemFromPathParts (.map [("a", .int 1)]) ["a", "b"]
          = .error (.nodeError ["a"] ["a", "b"])
      ∧ getitem (.map [("a", .int 1)]) ⟨true, ["a", "b"]⟩
          = .error (.nodeError ["a"] ["a", "b"])
      ∧ getitem (.map [("a", .int 1)]) ⟨true, ["x"]⟩
          = .error (.keyError "/x" "x"))
      ∧ (normalizePathParts ["a", "b"] = some ["a", "b"] →
          getitemFromPathPartsImp (.map [("a", .int 1)]) ["a", "b"]
            = .error (.unrecognizedParentNodeType ["b"]) →
          getitem (.map [("a", .int 1)]) ⟨true, ["a", "b"]⟩ =
            .error (.nodeError
              ((["a", "b"] : List String).filter (fun s => !(["b"] : List String).contains s))
              ["a", "b"]))
      ∧ ((Node.int 1).isScalar = true →
          getitemFromPathPartsImp (.int 1) ("b" :: []) =
            .error (.unrecognizedParentNodeType ("b" :: []))) :=
  ⟨⟨by simp, by rfl, by rfl, by rfl⟩,
    (c6_error_kinds (.map [("a", .int 1)]) ⟨true, ["a", "b"]⟩ "x" 0 ["a", "b"] ["b"] []
      [("a", .int 1)] [] "b" (.int 1) (by simp)).2.2.2.1,
    (c6_error_kinds (.map [("a", .int 1)]) ⟨true, ["a", "b"]⟩ "x" 0 ["a", "b"] ["b"] []
      [("a", .int 1)] [] "b" (.int 1) (by simp)).2.2.2.2.2.2.2⟩

/-! ### Claim C2: relative paths escaping the subtree retry against the root -/

/-- Claim C2: for a relative path whose local resolution fails with
`PathGoesAboveRoot`, a view at the true root re-raises, a deeper view
retries against the root with `abspath / path` (succeeding exactly when the
retried root lookup does), and any other error propagates unchanged with no
retry — for reads and writes alike. -/
theorem c2_view_escape_retry (v : View) (p : FsPath) (w n : Node) (e : TopErr)
    (es : SetTopErr) (r : Node) (habs : p.absolute = false) :
    (getitem v.tree p = .error .pathGoesAboveRoot → v.abspath = rootAbs →
        viewGetitem v p = .error .pathGoesAboveRoot)
      ∧ (getitem v.tree p = .error .pathGoesAboveRoot → v.abspath ≠ rootAbs →
          viewGetitem v p = getitem v.root (joinPath v.abspath p))
      ∧ (getitem v.tree p = .error .pathGoesAboveRoot → v.abspath ≠ rootAbs →
          getitem v.root (joinPath v.abspath p) = .ok n → viewGetitem v p = .ok n)
      ∧ (getitem v.tree p = .error e → e ≠ .pathGoesAboveRoot →
          viewGetitem v p = .error e)
      ∧ (setitem v.tree p w = .error .pathGoesAboveRoot → v.abspath = rootAbs →
          viewSetitem v p w = .error .pathGoesAboveRoot)
      ∧ (setitem v.tree p w = .error .pathGoesAboveRoot → v.abspath ≠ rootAbs →
          setitem v.root (joinPath v.abspath p) w = .ok r →
          viewSetitem v p w = .ok (.ontoRoot r))
      ∧ (setitem v.tree p w = .error .pathGoesAboveRoot → v.abspath ≠ rootAbs →
          setitem v.root (joinPath v.abspath p) w = .error es →
          viewSetitem v p w = .error es)
      ∧ (setitem v.tree p w = .error es → es ≠ .pathGoesAboveRoot →
          viewSetitem v p w = .error es) := by
  have habs2 : ¬ p.absolute = true := by simp [habs]
  refine ⟨?_, ?_, ?_, ?_, ?_, ?_, ?_, ?_⟩
  · intro h hroot
    simp only [viewGetitem]
    rw [if_neg habs2, h, if_pos hroot]
  · intro h hroot
    simp only [viewGetitem]
    rw [if_neg habs2, h, if_neg hroot]
  · intro h hroot hok
    simp only [viewGetitem]
    rw [if_neg habs2, h, if_neg hroot, hok]
  · intro h hne
    simp only [viewGetitem]
    rw [if_neg habs2, h]
    cases e with
    | keyError o s => rfl
    | invalidIndexError o i => rfl
    | indexError o s => rfl
    | valueError o s => rfl
    | nodeError c f => rfl
    | pathGoesAboveRoot => exact absurd rfl hne
  · intro h hroot
    simp only [viewSetitem]
    rw [if_neg habs2, h, if_pos hroot]
  · intro h hroot hok
    simp only [viewSetitem]
    rw [if_neg habs2, h, if_neg hroot, hok]
  · intro h hroot herr
    simp only [viewSetitem]
    rw [if_neg habs2, h, if_neg hroot, herr]
  · intro h hne
    simp only [viewSetitem]
    rw [if_neg habs2, h]
    cases es with
    | indexError o s => rfl
    | valueError o s => rfl
    | typeError => rfl
    | attributeError => rfl
    | pathGoesAboveRoot => exact absurd rfl hne

/-- Witness for C2: a view at `/sub` inside a two-entry root; `../a` escapes
the subtree locally and resolves to `/a` against the root. -/
def c2Root : Node := .map [("sub", .map [("b", .int 1)]), ("a", .int 5)]

def c2View : View := ⟨.map [("b", .int 1)], c2Root, ⟨true, ["sub"]⟩⟩

theorem c2_view_escape_retry_witness :
    ((⟨false, ["..", "a"]⟩ : FsPath).absolute = false
      ∧ getitem c2View.tree ⟨false, ["..", "a"]⟩ = .error .pathGoesAboveRoot
      ∧ c2View.abspath ≠ rootAbs
      ∧ getitem c2View.root (joinPath c2View.abspath ⟨false, ["..", "a"]⟩) = .ok (.int 5)
      ∧ viewGetitem c2View ⟨false, ["..", "a"]⟩ = .ok (.int 5))
      ∧ (getitem c2View.tree ⟨false, ["..", "a"]⟩ = .error .pathGoesAboveRoot →
          c2View.abspath = rootAbs →
          viewGetitem c2View ⟨false, ["..", "a"]⟩ = .error .pathGoesAboveRoot) :=
  ⟨⟨by rfl, by rfl, by simp [c2View, rootAbs], by rfl, by rfl⟩,
    (c2_view_escape_retry c2View ⟨false, ["..", "a"]⟩ .null .null .pathGoesAboveRoot
      .pathGoesAboveRoot .null (by rfl)).1⟩

/-! ### Claim C9: `get(path, default)` swallows only `KeyError` -/

def c9Root : Node := .map [("a", .seq [.int 7])]

/-- Counterexample to C9 as stated: a sequence index out of range is an
`InvalidIndexError` (an `IndexError` subclass, not a `KeyError`), and
`fspathtree.get` catches only `KeyError` — so the claimed "not found"-class
defaulting does not happen for an out-of-range index: the error escapes
instead of the default being returned. -/
theorem c9_counterexample :
    viewGet ⟨c9Root, c9Root, rootAbs⟩ ⟨true, ["a", "5"]⟩ (.int 99)
        = .error (.invalidIndexError "/a/5" 5)
      ∧ (Except.error (TopErr.invalidIndexError "/a/5" 5) : Except TopErr Node)
          ≠ .ok (.int 99) :=
  ⟨by rfl, by simp⟩

/-- Claim C9 (amended): `get(path, default)` returns the indexed value when
the lookup succeeds, returns the default exactly when the lookup fails with
a `KeyError` (a missing mapping key), and propagates every other failure —
including the `IndexError`-class out-of-range errors, `ValueError`,
`NodeError` and `PathGoesAboveRoot`. -/
theorem c9_get_with_default (v : View) (p : FsPath) (d n : Node) (e : TopErr) :
    (viewGetitem v p = .ok n → viewGet v p d = .ok n)
      ∧ (viewGetitem v p = .error e → e.isKeyErr = true → viewGet v p d = .ok d)
      ∧ (viewGetitem v p = .error e → e.isKeyErr = false → viewGet v p d = .error e) := by
  refine ⟨?_, ?_, ?_⟩
  · intro h
    simp only [viewGet]
    rw [h]
  · intro h hk
    simp only [viewGet]
    rw [h]
    cases e <;> simp [TopErr.isKeyErr] at hk ⊢
  · intro h hk
    simp only [viewGet]
    rw [h]
    cases e <;> simp [TopErr.isKeyErr] at hk ⊢

/-- Witness for the amended C9: a missing mapping key is defaulted, at the
concrete view over `c9Root`. -/
theorem c9_get_with_default_witness :
    (viewGetitem ⟨c9Root, c9Root, rootAbs⟩ ⟨true, ["x"]⟩ = .error (.keyError "/x" "x")
      ∧ (TopErr.keyError "/x" "x").isKeyErr = true)
      ∧ viewGet ⟨c9Root, c9Root, rootAbs⟩ ⟨true, ["x"]⟩ (.int 99) = .ok (.int 99) :=
  ⟨⟨by rfl, by rfl⟩,
    (c9_get_with_default ⟨c9Root, c9Root, rootAbs⟩ ⟨true, ["x"]⟩ (.int 99) .null
      (.keyError "/x" "x")).2.1 (by rfl) (by rfl)⟩

/-! ### Claim C10: reads leave the tree untouched -/

/-- The state-threaded single-path read returns the tree unchanged and
computes exactly what the pure read computes. -/
theorem getitemImpS_frame (parts : List String) : ∀ tree : Node,
    (getitemFromPathPartsImpS tree parts).1 = tree
      ∧ (getitemFromPathPartsImpS tree parts).2 = getitemFromPathPartsImp tree parts := by
  induction parts with
  | nil =>
    intro tree
    cases tree <;> simp [getitemFromPathPartsImpS, getitemFromPathPartsImp]
  | cons key rest ih =>
    intro tree
    cases tree with
    | null => simp [getitemFromPathPartsImpS, getitemFromPathPartsImp]
    | int n => simp [getitemFromPathPartsImpS, getitemFromPathPartsImp]
    | map entries =>
      simp only [getitemFromPathPartsImpS, getitemFromPathPartsImp]
      cases hlk : lookupMap entries key with
      | none => simp
      | some c =>
        dsimp only
        by_cases hrest : rest = []
        · simp [hrest]
        · rw [if_neg hrest, if_neg hrest]
          rcases hS : getitemFromPathPartsImpS c rest with ⟨node2, r⟩
          obtain ⟨h1, h2⟩ := ih c
          rw [hS] at h1 h2
          simp at h1 h2
          subst h1
          simp [mapSet_self _ _ _ hlk, h2]
    | seq items =>
      simp only [getitemFromPathPartsImpS, getitemFromPathPartsImp]
      by_cases hnum : isNumeric key
      · simp only [hnum, if_true]
        by_cases hlen : items.length > strToNat key
        · rw [if_pos hlen, if_pos hlen]
          by_cases hrest : rest = []
          · simp [hrest]
          · rw [if_neg hrest, if_neg hrest]
            rcases hS : getitemFromPathPartsImpS (listAt items (strToNat key)) rest
              with ⟨node2, r⟩
            obtain ⟨h1, h2⟩ := ih (listAt items (strToNat key))
            rw [hS] at h1 h2
            simp at h1 h2
            subst h1
            simp [listSet_listAt_self items (strToNat key) hlen, h2]
        · rw [if_neg hlen, if_neg hlen]
          simp
      · simp [hnum]
    | str s =>
      simp only [getitemFromPathPartsImpS, getitemFromPathPartsImp]
      by_cases hnum : isNumeric key
      · simp only [hnum, if_true]
        by_cases hlen : s.length > strToNat key
        · rw [if_pos hlen, if_pos hlen]
          by_cases hrest : rest = []
          · simp [hrest]
          · rw [if_neg hrest, if_neg hrest]
            rcases hS : getitemFromPathPartsImpS (.str (strCharAt s (strToNat key))) rest
              with ⟨node2, r⟩
            obtain ⟨h1, h2⟩ := ih (.str (strCharAt s (strToNat key)))
            rw [hS] at h1 h2
            simp at h1 h2
            simp [h2]
        · rw [if_neg hlen, if_neg hlen]
          simp
      · simp [hnum]

mutual
/-- The children stage of the state-threaded enumeration returns the node
unchanged and computes what the pure children stage computes (shared core
for every predicate/transform outcome). -/
theorem getAllPathsS_frame_core (node : Node) (t : Option Transform)
    (pr : Option (PyCallable Bool)) (rp : FsPath) (emitted : List FsPath) :
    (match node with
     | Node.map entries =>
       match getAllPathsMapChildrenS entries t pr rp with
       | (entries2, Except.ok kids) => (Node.map entries2, Except.ok (emitted ++ kids))
       | (entries2, Except.error e) => (Node.map entries2, Except.error e)
     | Node.seq items =>
       match getAllPathsSeqChildrenS items 0 t pr rp with
       | (items2, Except.ok kids) => (Node.seq items2, Except.ok (emitted ++ kids))
       | (items2, Except.error _) => (Node.seq items2, Except.error (seqFallbackError items2))
     | other => (other, Except.ok emitted)).1 = node
      ∧ (match node with
         | Node.map entries =>
           match getAllPathsMapChildrenS entries t pr rp with
           | (entries2, Except.ok kids) => (Node.map entries2, Except.ok (emitted ++ kids))
           | (entries2, Except.error e) => (Node.map entries2, Except.error e)
         | Node.seq items =>
           match getAllPathsSeqChildrenS items 0 t pr rp with
           | (items2, Except.ok kids) => (Node.seq items2, Except.ok (emitted ++ kids))
           | (items2, Except.error _) => (Node.seq items2, Except.error (seqFallbackError items2))
         | other => (other, Except.ok emitted)).2 =
        (match node with
         | Node.map entries =>
           match getAllPathsMapChildren entries t pr rp with
           | Except.ok kids => Except.ok (emitted ++ kids)
           | Except.error e => Except.error e
         | Node.seq items =>
           match getAllPathsSeqChildren items 0 t pr rp with
           | Except.ok kids => Except.ok (emitted ++ kids)
           | Except.error _ => Except.error (seqFallbackError items)
         | _ => Except.ok emitted) := by
  cases node with
  | null => exact ⟨rfl, rfl⟩
  | int n => exact ⟨rfl, rfl⟩
  | str s => exact ⟨rfl, rfl⟩
  | map entries =>
    dsimp only
    rcases hS : getAllPathsMapChildrenS entries t pr rp with ⟨entries2, r⟩
    obtain ⟨h1, h2⟩ := getAllPathsMapChildrenS_frame entries t pr rp
    rw [hS] at h1 h2
    simp at h1 h2
    subst h1
    rw [← h2]
    cases r <;> simp
  | seq items =>
    dsimp only
    rcases hS : getAllPathsSeqChildrenS items 0 t pr rp with ⟨items2, r⟩
    obtain ⟨h1, h2⟩ := getAllPathsSeqChildrenS_frame items 0 t pr rp
    rw [hS] at h1 h2
    simp at h1 h2
    subst h1
    rw [← h2]
    cases r <;> simp

/-- The state-threaded enumeration returns the node unchanged and computes
what the pure enumeration computes. -/
theorem getAllPathsS_frame (node : Node) (t : Option Transform)
    (pr : Option (PyCallable Bool)) (rp : FsPath) :
    (getAllPathsS node t pr rp).1 = node
      ∧ (getAllPathsS node t pr rp).2 = getAllPaths node t pr rp := by
  cases pr with
  | none =>
    simp only [getAllPathsS, getAllPaths, if_true]
    cases hte : evalTransform t rp node with
    | error e => exact ⟨rfl, rfl⟩
    | ok x =>
      dsimp only
      exact getAllPathsS_frame_core node t none rp [x]
  | some prc =>
    simp only [getAllPathsS, getAllPaths]
    cases hpe : evalPredicate prc rp node with
    | error e => exact ⟨rfl, rfl⟩
    | ok returnPath =>
      cases returnPath with
      | false =>
        dsimp only
        exact getAllPathsS_frame_core node t (some prc) rp []
      | true =>
        dsimp only
        cases hte : evalTransform t rp node with
        | error e => exact ⟨rfl, rfl⟩
        | ok x =>
          dsimp only
          exact getAllPathsS_frame_core node t (some prc) rp [x]

theorem getAllPathsMapChildrenS_frame (entries : List (String × Node)) (t : Option Transform)
    (pr : Option (PyCallable Bool)) (rp : FsPath) :
    (getAllPathsMapChildrenS entries t pr rp).1 = entries
      ∧ (getAllPathsMapChildrenS entries t pr rp).2
          = getAllPathsMapChildren entries t pr rp := by
  cases entries with
  | nil => simp [getAllPathsMapChildrenS, getAllPathsMapChildren]
  | cons e rest =>
    obtain ⟨k, c⟩ := e
    simp only [getAllPathsMapChildrenS, getAllPathsMapChildren]
    rcases hS : getAllPathsS c t pr (pathChild rp k) with ⟨c2, r1⟩
    obtain ⟨h1, h2⟩ := getAllPathsS_frame c t pr (pathChild rp k)
    rw [hS] at h1 h2
    simp at h1 h2
    subst h1
    rw [← h2]
    cases r1 with
    | error e1 => simp
    | ok l1 =>
      rcases hS2 : getAllPathsMapChildrenS rest t pr rp with ⟨rest2, r2⟩
      obtain ⟨h3, h4⟩ := getAllPathsMapChildrenS_frame rest t pr rp
      rw [hS2] at h3 h4
      simp at h3 h4
      subst h3
      rw [← h4]
      cases r2 <;> simp

theorem getAllPathsSeqChildrenS_frame (items : List Node) (i : Nat) (t : Option Transform)
    (pr : Option (PyCallable Bool)) (rp : FsPath) :
    (getAllPathsSeqChildrenS items i t pr rp).1 = items
      ∧ (getAllPathsSeqChildrenS items i t pr rp).2
          = getAllPathsSeqChildren items i t pr rp := by
  cases items with
  | nil => simp [getAllPathsSeqChildrenS, getAllPathsSeqChildren]
  | cons c rest =>
    simp only [getAllPathsSeqChildrenS, getAllPathsSeqChildren]
    rcases hS : getAllPathsS c t pr (pathChild rp (toString i)) with ⟨c2, r1⟩
    obtain ⟨h1, h2⟩ := getAllPathsS_frame c t pr (pathChild rp (toString i))
    rw [hS] at h1 h2
    simp at h1 h2
    subst h1
    rw [← h2]
    cases r1 with
    | error e1 => simp
    | ok l1 =>
      rcases hS2 : getAllPathsSeqChildrenS rest (i + 1) t pr rp with ⟨rest2, r2⟩
      obtain ⟨h3, h4⟩ := getAllPathsSeqChildrenS_frame rest (i + 1) t pr rp
      rw [hS2] at h3 h4
      simp at h3 h4
      subst h3
      rw [← h4]
      cases r2 <;> simp
end

/-- Claim C10 (implicit frame property): the read paths — the recursive
`getitem` walker and the enumeration traversal, on which `__getitem__`,
static `getitem`, `get_all_paths`, `get_all_leaf_node_paths` and `find` are
built — leave the tree exactly as it was, whether they succeed or fail, and
return precisely what the pure functions compute: reads never auto-vivify,
pad sequences, or upgrade leaves. -/
theorem c10_reads_do_not_mutate (tree : Node) (parts : List String) (node : Node)
    (t : Option Transform) (pr : Option (PyCallable Bool)) (rp : FsPath) :
    (getitemFromPathPartsImpS tree parts).1 = tree
      ∧ (getitemFromPathPartsImpS tree parts).2 = getitemFromPathPartsImp tree parts
      ∧ (getAllPathsS node t pr rp).1 = node
      ∧ (getAllPathsS node t pr rp).2 = getAllPaths node t pr rp :=
  ⟨(getitemImpS_frame parts tree).1, (getitemImpS_frame parts tree).2,
    (getAllPathsS_frame node t pr rp).1, (getAllPathsS_frame node t pr rp).2⟩

/-! ### Claim C7: `find` is the leaves-only enumeration filtered by `match` -/

theorem evalPredicate_one (f : FsPath → Bool) (g : FsPath → Node → Bool) (p : FsPath)
    (n : Node) : evalPredicate ⟨1, f, g⟩ p n = .ok (f p) := by
  simp [evalPredicate]

theorem evalPredicate_two (f : FsPath → Bool) (g : FsPath → Node → Bool) (p : FsPath)
    (n : Node) : evalPredicate ⟨2, f, g⟩ p n = .ok (g p n) := by
  simp [evalPredicate]

mutual
/-- Conjoining a path-only condition onto an arity-2 predicate filters the
enumeration's output by that condition (errors pass through untouched). -/
theorem getAllPaths_filter (node : Node) (f1 f2 : FsPath → Bool) (g : FsPath → Node → Bool)
    (q : FsPath → Bool) (rp : FsPath) :
    getAllPaths node none (some ⟨2, f1, fun p n => g p n && q p⟩) rp
      = Except.map (List.filter q) (getAllPaths node none (some ⟨2, f2, g⟩) rp) := by
  simp only [getAllPaths, evalPredicate_two]
  dsimp only [evalTransform]
  cases hg : g rp node with
  | false =>
    simp only [Bool.false_and, if_neg (by simp : ¬ (false = true))]
    cases node with
    | null => rfl
    | int n => rfl
    | str s => rfl
    | map entries =>
      dsimp only
      rw [getAllPathsMapChildren_filter entries f1 f2 g q rp]
      cases hc : getAllPathsMapChildren entries none (some ⟨2, f2, g⟩) rp <;>
        simp [Except.map]
    | seq items =>
      dsimp only
      rw [getAllPathsSeqChildren_filter items 0 f1 f2 g q rp]
      cases hc : getAllPathsSeqChildren items 0 none (some ⟨2, f2, g⟩) rp <;>
        simp [Except.map]
  | true =>
    cases hq : q rp with
    | false =>
      simp only [Bool.true_and, hq, if_neg (by simp : ¬ (false = true)),
        if_pos (rfl : (true : Bool) = true)]
      cases node with
      | null => simp [hq, Except.map, List.filter]
      | int n => simp [hq, Except.map, List.filter]
      | str s => simp [hq, Except.map, List.filter]
      | map entries =>
        dsimp only
        rw [getAllPathsMapChildren_filter entries f1 f2 g q rp]
        cases hc : getAllPathsMapChildren entries none (some ⟨2, f2, g⟩) rp <;>
          simp [hq, Except.map]
      | seq items =>
        dsimp only
        rw [getAllPathsSeqChildren_filter items 0 f1 f2 g q rp]
        cases hc : getAllPathsSeqChildren items 0 none (some ⟨2, f2, g⟩) rp <;>
          simp [hq, Except.map]
    | true =>
      simp only [Bool.true_and, hq, if_pos (rfl : (true : Bool) = true)]
      cases node with
      | null => simp [hq, Except.map, List.filter]
      | int n => simp [hq, Except.map, List.filter]
      | str s => simp [hq, Except.map, List.filter]
      | map entries =>
        dsimp only
        rw [getAllPathsMapChildren_filter entries f1 f2 g q rp]
        cases hc : getAllPathsMapChildren entries none (some ⟨2, f2, g⟩) rp <;>
          simp [hq, Except.map]
      | seq items =>
        dsimp only
        rw [getAllPathsSeqChildren_filter items 0 f1 f2 g q rp]
        cases hc : getAllPathsSeqChildren items 0 none (some ⟨2, f2, g⟩) rp <;>
          simp [hq, Except.map]

theorem getAllPathsMapChildren_filter (entries : List (String × Node))
    (f1 f2 : FsPath → Bool) (g : FsPath → Node → Bool) (q : FsPath → Bool) (rp : FsPath) :
    getAllPathsMapChildren entries none (some ⟨2, f1, fun p n => g p n && q p⟩) rp
      = Except.map (List.filter q)
          (getAllPathsMapChildren entries none (some ⟨2, f2, g⟩) rp) := by
  cases entries with
  | nil => simp [getAllPathsMapChildren, Except.map]
  | cons e rest =>
    obtain ⟨k, c⟩ := e
    simp only [getAllPathsMapChildren]
    rw [getAllPaths_filter c f1 f2 g q (pathChild rp k)]
    cases h1 : getAllPaths c none (some ⟨2, f2, g⟩) (pathChild rp k) with
    | error e1 => simp [Except.map]
    | ok l1 =>
      rw [getAllPathsMapChildren_filter rest f1 f2 g q rp]
      cases h2 : getAllPathsMapChildren rest none (some ⟨2, f2, g⟩) rp with
      | error e2 => simp [Except.map]
      | ok l2 => simp [List.filter_append, Except.map]

theorem getAllPathsSeqChildren_filter (items : List Node) (i : Nat)
    (f1 f2 : FsPath → Bool) (g : FsPath → Node → Bool) (q : FsPath → Bool) (rp : FsPath) :
    getAllPathsSeqChildren items i none (some ⟨2, f1, fun p n => g p n && q p⟩) rp
      = Except.map (List.filter q)
          (getAllPathsSeqChildren items i none (some ⟨2, f2, g⟩) rp) := by
  cases items with
  | nil => simp [getAllPathsSeqChildren, Except.map]
  | cons c rest =>
    simp only [getAllPathsSeqChildren]
    rw [getAllPaths_filter c f1 f2 g q (pathChild rp (toString i))]
    cases h1 : getAllPaths c none (some ⟨2, f2, g⟩) (pathChild rp (toString i)) with
    | error e1 => simp [Except.map]
    | ok l1 =>
      rw [getAllPathsSeqChildren_filter rest (i + 1) f1 f2 g q rp]
      cases h2 : getAllPathsSeqChildren rest (i + 1) none (some ⟨2, f2, g⟩) rp with
      | error e2 => simp [Except.map]
      | ok l2 => simp [List.filter_append, Except.map]
end

/-- The searching-test fixture from the source's unit tests:
`{one: 1, l2: {one: 1, two: 2, l3: {one: 1}}, ll2: {one: 11}}`. -/
def findFixture : Node :=
  .map [("one", .int 1),
        ("l2", .map [("one", .int 1), ("two", .int 2), ("l3", .map [("one", .int 1)])]),
        ("ll2", .map [("one", .int 11)])]

/-- Claim C7: `find(tree, pattern)` is exactly the leaves-only enumeration
filtered by `path.match(pattern)` — in traversal order with no other
transformation — and on the source's fixture the glob `l*/one` selects
exactly the three matching leaf paths, with shell-glob matching applying to
trailing components for a relative pattern and to the whole path for an
absolute one (mirrored from the source's own `match` test cases). -/
theorem c7_find_is_filtered_leaves (tree : Node) (pattern rp : FsPath) (L : List FsPath)
    (hpat : pathParts pattern ≠ [])
    (hL : getAllLeafNodePaths tree none none rp = .ok L) :
    find tree pattern rp = .ok (L.filter (fun p => pathMatch p pattern))
      ∧ find findFixture ⟨false, ["l*", "one"]⟩ rootAbs =
          .ok [⟨true, ["l2", "one"]⟩, ⟨true, ["l2", "l3", "one"]⟩, ⟨true, ["ll2", "one"]⟩]
      ∧ pathMatch ⟨true, ["l2", "l3", "one"]⟩ ⟨false, ["*", "one"]⟩ = true
      ∧ pathMatch ⟨true, ["l2", "l3", "one"]⟩ ⟨true, ["*", "one"]⟩ = false := by
  have main : ∀ (tr : Node) (rp2 : FsPath) (L2 : List FsPath),
      getAllLeafNodePaths tr none none rp2 = .ok L2 →
      find tr pattern rp2 = .ok (L2.filter (fun p => pathMatch p pattern)) := by
    intro tr rp2 L2 hL2
    have hunfold : find tr pattern rp2 =
        getAllPaths tr none
          (some ⟨2, fun _ => true, fun p n => n.isLeaf && pathMatch p pattern⟩) rp2 := by
      rfl
    have hunfold2 : getAllLeafNodePaths tr none none rp2 =
        getAllPaths tr none (some ⟨2, fun _ => true, fun _ n => n.isLeaf⟩) rp2 := by
      rfl
    rw [hunfold,
      getAllPaths_filter tr (fun _ => true) (fun _ => true) (fun _ n => n.isLeaf)
        (fun p => pathMatch p pattern) rp2,
      ← hunfold2, hL2]
    rfl
  refine ⟨main tree rp L hL, ?_, ?_, ?_⟩
  · have hfix : getAllLeafNodePaths findFixture none none rootAbs =
        .ok [⟨true, ["one"]⟩, ⟨true, ["l2", "one"]⟩, ⟨true, ["l2", "two"]⟩,
             ⟨true, ["l2", "l3", "one"]⟩, ⟨true, ["ll2", "one"]⟩] := by
      rfl
    have main2 : ∀ (tr : Node) (rp2 : FsPath) (L2 : List FsPath),
        getAllLeafNodePaths tr none none rp2 = .ok L2 →
        find tr ⟨false, ["l*", "one"]⟩ rp2 =
          .ok (L2.filter (fun p => pathMatch p ⟨false, ["l*", "one"]⟩)) := by
      intro tr rp2 L2 hL2
      have hunfold : find tr ⟨false, ["l*", "one"]⟩ rp2 =
          getAllPaths tr none
            (some ⟨2, fun _ => true,
              fun p n => n.isLeaf && pathMatch p ⟨false, ["l*", "one"]⟩⟩) rp2 := by
        rfl
      have hunfold2 : getAllLeafNodePaths tr none none rp2 =
          getAllPaths tr none (some ⟨2, fun _ => true, fun _ n => n.isLeaf⟩) rp2 := by
        rfl
      rw [hunfold,
        getAllPaths_filter tr (fun _ => true) (fun _ => true) (fun _ n => n.isLeaf)
          (fun p => pathMatch p ⟨false, ["l*", "one"]⟩) rp2,
        ← hunfold2, hL2]
      rfl
    rw [main2 findFixture rootAbs _ hfix]
    have hm1 : pathMatch ⟨true, ["one"]⟩ ⟨false, ["l*", "one"]⟩ = false := by
      simp [pathMatch, pathParts, matchTrailing, fnmatchStr]
      simp [globMatch]
    have hm2 : pathMatch ⟨true, ["l2", "one"]⟩ ⟨false, ["l*", "one"]⟩ = true := by
      simp [pathMatch, pathParts, matchTrailing, fnmatchStr]
      simp [globMatch, parseClass, parseClassBody, splitAtRBracket]
    have hm3 : pathMatch ⟨true, ["l2", "two"]⟩ ⟨false, ["l*", "one"]⟩ = false := by
      simp [pathMatch, pathParts, matchTrailing, fnmatchStr]
      simp [globMatch, parseClass, parseClassBody, splitAtRBracket]
    have hm4 : pathMatch ⟨true, ["l2", "l3", "one"]⟩ ⟨false, ["l*", "one"]⟩ = true := by
      simp [pathMatch, pathParts, matchTrailing, fnmatchStr]
      simp [globMatch, parseClass, parseClassBody, splitAtRBracket]
    have hm5 : pathMatch ⟨true, ["ll2", "one"]⟩ ⟨false, ["l*", "one"]⟩ = true := by
      simp [pathMatch, pathParts, matchTrailing, fnmatchStr]
      simp [globMatch, parseClass, parseClassBody, splitAtRBracket]
    simp [List.filter, hm1, hm2, hm3, hm4, hm5]
  · simp [pathMatch, pathParts, matchTrailing, fnmatchStr]
    simp [globMatch, parseClass, parseClassBody, splitAtRBracket]
  · simp [pathMatch, pathParts, matchTrailing, fnmatchStr]

/-- Witness for C7 at the source fixture and the pattern `l*/one`. -/
theorem c7_find_is_filtered_leaves_witness :
    (pathParts ⟨false, ["l*", "one"]⟩ ≠ []
      ∧ getAllLeafNodePaths findFixture none none rootAbs =
          .ok [⟨true, ["one"]⟩, ⟨true, ["l2", "one"]⟩, ⟨true, ["l2", "two"]⟩,
               ⟨true, ["l2", "l3", "one"]⟩, ⟨true, ["ll2", "one"]⟩])
      ∧ (find findFixture ⟨false, ["l*", "one"]⟩ rootAbs =
            .ok (([⟨true, ["one"]⟩, ⟨true, ["l2", "one"]⟩, ⟨true, ["l2", "two"]⟩,
                   ⟨true, ["l2", "l3", "one"]⟩, ⟨true, ["ll2", "one"]⟩] : List FsPath).filter
              (fun p => pathMatch p ⟨false, ["l*", "one"]⟩))
          ∧ find findFixture ⟨false, ["l*", "one"]⟩ rootAbs =
              .ok [⟨true, ["l2", "one"]⟩, ⟨true, ["l2", "l3", "one"]⟩, ⟨true, ["ll2", "one"]⟩]
          ∧ pathMatch ⟨true, ["l2", "l3", "one"]⟩ ⟨false, ["*", "one"]⟩ = true
          ∧ pathMatch ⟨true, ["l2", "l3", "one"]⟩ ⟨true, ["*", "one"]⟩ = false) :=
  ⟨⟨by simp [pathParts], by rfl⟩,
    c7_find_is_filtered_leaves findFixture ⟨false, ["l*", "one"]⟩ rootAbs
      [⟨true, ["one"]⟩, ⟨true, ["l2", "one"]⟩, ⟨true, ["l2", "two"]⟩,
       ⟨true, ["l2", "l3", "one"]⟩, ⟨true, ["ll2", "one"]⟩]
      (by simp [pathParts]) (by rfl)⟩

/-! ### Claim C8: predicate/transform arity dispatch -/

mutual
/-- Predicates with the same dispatch behaviour drive identical
enumerations. -/
theorem getAllPaths_congr (node : Node) (t : Option Transform) (p1 p2 : PyCallable Bool)
    (rp : FsPath) (h : ∀ (pa : FsPath) (nd : Node), evalPredicate p1 pa nd = evalPredicate p2 pa nd) :
    getAllPaths node t (some p1) rp = getAllPaths node t (some p2) rp := by
  simp only [getAllPaths]
  rw [h rp node]
  cases hpe : evalPredicate p2 rp node with
  | error e => rfl
  | ok returnPath =>
    cases returnPath with
    | false =>
      dsimp only
      cases node with
      | null => rfl
      | int n => rfl
      | str s => rfl
      | map entries =>
        dsimp only
        rw [getAllPathsMapChildren_congr entries t p1 p2 rp h]
      | seq items =>
        dsimp only
        rw [getAllPathsSeqChildren_congr items 0 t p1 p2 rp h]
    | true =>
      dsimp only
      cases hte : evalTransform t rp node with
      | error e => rfl
      | ok x =>
        dsimp only
        cases node with
        | null => rfl
        | int n => rfl
        | str s => rfl
        | map entries =>
          dsimp only
          rw [getAllPathsMapChildren_congr entries t p1 p2 rp h]
        | seq items =>
          dsimp only
          rw [getAllPathsSeqChildren_congr items 0 t p1 p2 rp h]

theorem getAllPathsMapChildren_congr (entries : List (String × Node)) (t : Option Transform)
    (p1 p2 : PyCallable Bool) (rp : FsPath)
    (h : ∀ (pa : FsPath) (nd : Node), evalPredicate p1 pa nd = evalPredicate p2 pa nd) :
    getAllPathsMapChildren entries t (some p1) rp
      = getAllPathsMapChildren entries t (some p2) rp := by
  cases entries with
  | nil => rfl
  | cons e rest =>
    obtain ⟨k, c⟩ := e
    simp only [getAllPathsMapChildren]
    rw [getAllPaths_congr c t p1 p2 (pathChild rp k) h,
      getAllPathsMapChildren_congr rest t p1 p2 rp h]

theorem getAllPathsSeqChildren_congr (items : List Node) (i : Nat) (t : Option Transform)
    (p1 p2 : PyCallable Bool) (rp : FsPath)
    (h : ∀ (pa : FsPath) (nd : Node), evalPredicate p1 pa nd = evalPredicate p2 pa nd) :
    getAllPathsSeqChildren items i t (some p1) rp
      = getAllPathsSeqChildren items i t (some p2) rp := by
  cases items with
  | nil => rfl
  | cons c rest =>
    simp only [getAllPathsSeqChildren]
    rw [getAllPaths_congr c t p1 p2 (pathChild rp (toString i)) h,
      getAllPathsSeqChildren_congr rest (i + 1) t p1 p2 rp h]
end

mutual
/-- With a predicate that rejects every path, the enumeration emits nothing
and never evaluates the transform. -/
theorem getAllPaths_false_pred (node : Node) (t : Option Transform) (g : FsPath → Node → Bool)
    (rp : FsPath) :
    getAllPaths node t (some ⟨1, fun _ => false, g⟩) rp = .ok [] := by
  simp only [getAllPaths, evalPredicate_one]
  cases node with
  | null => rfl
  | int n => rfl
  | str s => rfl
  | map entries =>
    dsimp only
    rw [getAllPathsMapChildren_false_pred entries t g rp]
    rfl
  | seq items =>
    dsimp only
    rw [getAllPathsSeqChildren_false_pred items 0 t g rp]
    rfl

theorem getAllPathsMapChildren_false_pred (entries : List (String × Node))
    (t : Option Transform) (g : FsPath → Node → Bool) (rp : FsPath) :
    getAllPathsMapChildren entries t (some ⟨1, fun _ => false, g⟩) rp = .ok [] := by
  cases entries with
  | nil => rfl
  | cons e rest =>
    obtain ⟨k, c⟩ := e
    simp only [getAllPathsMapChildren]
    rw [getAllPaths_false_pred c t g (pathChild rp k),
      getAllPathsMapChildren_false_pred rest t g rp]
    rfl

theorem getAllPathsSeqChildren_false_pred (items : List Node) (i : Nat)
    (t : Option Transform) (g : FsPath → Node → Bool) (rp : FsPath) :
    getAllPathsSeqChildren items i t (some ⟨1, fun _ => false, g⟩) rp = .ok [] := by
  cases items with
  | nil => rfl
  | cons c rest =>
    simp only [getAllPathsSeqChildren]
    rw [getAllPaths_false_pred c t g (pathChild rp (toString i)),
      getAllPathsSeqChildren_false_pred rest (i + 1) t g rp]
    rfl
end

/-- Counterexample to C8 as stated: an arity-3 transform does *not* make the
enumeration fail when a predicate suppresses every emission — the transform
is only arity-checked when a path is actually emitted, so the enumeration
succeeds (with no output) instead of raising the configuration error. -/
theorem c8_counterexample :
    getAllPaths (.map [("a", .int 1)])
        (some (.callable ⟨3, fun p => p, fun p _ => p⟩))
        (some ⟨1, fun _ => false, fun _ _ => false⟩) rootAbs = .ok []
      ∧ (Except.ok ([] : List FsPath) : Except EnumErr (List FsPath))
          ≠ .error (.transformNotSupported 3) :=
  ⟨by rfl, by simp⟩

/-- Claim C8 (amended): a 1-parameter predicate is consulted with only the
path (the enumeration cannot depend on how it would treat the node), a
2-parameter predicate receives path and value, and a predicate of any other
arity makes both `_get_all_paths` and `_get_all_leaf_node_paths` fail fast
with the unsupported-arity configuration error (Python's `RuntimeError`)
before anything is yielded.  A *transform* of unsupported arity fails with
the configuration error at the first emitted path (in particular
immediately, at the root, when no predicate is supplied); when a predicate
suppresses every path the transform is never invoked and the enumeration
succeeds. -/
theorem c8_arity_dispatch (tree : Node) (n : Nat) (f f2 : FsPath → Bool)
    (g g2 gp : FsPath → Node → Bool) (ft : FsPath → FsPath) (gt : FsPath → Node → FsPath)
    (t : Option Transform) (rp : FsPath) (hn1 : n ≠ 1) (hn2 : n ≠ 2) :
    getAllPaths tree t (some ⟨n, f, g⟩) rp = .error (.predicateNotSupported n)
      ∧ getAllLeafNodePaths tree t (some ⟨n, f, g⟩) rp = .error (.predicateNotSupported n)
      ∧ getAllPaths tree t (some ⟨1, f, g⟩) rp = getAllPaths tree t (some ⟨1, f, g2⟩) rp
      ∧ getAllPaths tree t (some ⟨2, f, gp⟩) rp = getAllPaths tree t (some ⟨2, f2, gp⟩) rp
      ∧ getAllPaths tree (some (.callable ⟨n, ft, gt⟩)) none rp
          = .error (.transformNotSupported n)
      ∧ getAllPaths tree (some (.callable ⟨n, ft, gt⟩)) (some ⟨1, fun _ => false, gp⟩) rp
          = .ok [] := by
  refine ⟨?_, ?_, ?_, ?_, ?_, ?_⟩
  · simp only [getAllPaths, evalPredicate]
    rw [if_neg hn1, if_neg hn2]
  · simp only [getAllLeafNodePaths, newPredicateLeaf]
    rw [if_neg hn1, if_neg hn2]
  · exact getAllPaths_congr tree t ⟨1, f, g⟩ ⟨1, f, g2⟩ rp
      (by intro pa nd; simp [evalPredicate_one])
  · exact getAllPaths_congr tree t ⟨2, f, gp⟩ ⟨2, f2, gp⟩ rp
      (by intro pa nd; simp [evalPredicate_two])
  · simp only [getAllPaths, evalTransform, if_true]
    rw [if_neg hn1, if_neg hn2]
  · exact getAllPaths_false_pred tree (some (.callable ⟨n, ft, gt⟩)) gp rp

/-- Witness for the amended C8 at arity 3. -/
theorem c8_arity_dispatch_witness :
    ((3 : Nat) ≠ 1 ∧ (3 : Nat) ≠ 2)
      ∧ (getAllPaths (.map [("a", .int 1)]) none
            (some ⟨3, fun _ => true, fun _ _ => true⟩) rootAbs
          = .error (.predicateNotSupported 3)
        ∧ getAllLeafNodePaths (.map [("a", .int 1)]) none
            (some ⟨3, fun _ => true, fun _ _ => true⟩) rootAbs
          = .error (.predicateNotSupported 3)
        ∧ getAllPaths (.map [("a", .int 1)]) none
              (some ⟨1, fun _ => true, fun _ _ => true⟩) rootAbs
            = getAllPaths (.map [("a", .int 1)]) none
              (some ⟨1, fun _ => true, fun _ _ => false⟩) rootAbs
        ∧ getAllPaths (.map [("a", .int 1)]) none
              (some ⟨2, fun _ => true, fun _ n2 => n2.isLeaf⟩) rootAbs
            = getAllPaths (.map [("a", .int 1)]) none
              (some ⟨2, fun _ => false, fun _ n2 => n2.isLeaf⟩) rootAbs
        ∧ getAllPaths (.map [("a", .int 1)])
              (some (.callable ⟨3, fun p => p, fun p _ => p⟩)) none rootAbs
            = .error (.transformNotSupported 3)
        ∧ getAllPaths (.map [("a", .int 1)])
              (some (.callable ⟨3, fun p => p, fun p _ => p⟩))
              (some ⟨1, fun _ => false, fun _ n2 => n2.isLeaf⟩) rootAbs
            = .ok []) :=
  ⟨⟨by simp, by simp⟩,
    c8_arity_dispatch (.map [("a", .int 1)]) 3 (fun _ => true) (fun _ => false)
      (fun _ _ => true) (fun _ _ => false) (fun _ n2 => n2.isLeaf) (fun p => p) (fun p _ => p)
      none rootAbs (by simp) (by simp)⟩

end Fspathtree
